import Mathlib

/-!
Verification development for the asset persistence pipeline of the
docu-notion image-handling module.

The definitions below are a shallow embedding of the module that handles
image blocks: caption parsing (`parseImageBlock`), output-name planning
(`makeImagePersistencePlanWithoutBuffer`), the skip-or-write cache gate,
localized-variant handling (`saveLocalizedImages`), the seen-registry
bookkeeping (`imageWasSeen`, `cleanupOldImages`) and the per-block
orchestrator (`processImageBlock`).

External primitives the module calls into (network fetch, binary-type
sniffing, SHA-256, `decodeURI`, the asset writer, file deletion) are
modelled as explicit parameters bundled in `ExtDeps`; the filesystem is a
set of existing paths threaded through the run, and every cache decision,
fetch and write is recorded in a trace so that the testable properties can
be stated about a whole run.
-/

namespace DocuNotion

/-! ## JavaScript string primitives

The source manipulates JS strings with `split`, `replace`, `replaceAll`,
`trim`, `toLowerCase`, `substring`. We re-implement these over `List Char`
so that every definition evaluates by kernel reduction.
-/

/-- JS `\s` whitespace class, restricted to the ASCII whitespace characters
that can actually occur in the strings the module handles. -/
def isWsChar (c : Char) : Bool :=
  c = ' ' || c = '\t' || c = '\n' || c = '\x0d' || c = '\x0b' || c = '\x0c'

/-- JS regex `.`: any character except a line terminator. -/
def isDotChar (c : Char) : Bool :=
  !(c = '\n' || c = '\x0d')

/-- Split a character list at every occurrence of the separator, JS
`String.prototype.split` with a one-character separator. -/
def splitCharAux (sep : Char) : List Char → List Char → List (List Char)
  | [], acc => [acc.reverse]
  | c :: rest, acc =>
    if c = sep then acc.reverse :: splitCharAux sep rest []
    else splitCharAux sep rest (c :: acc)

/-- JS `s.split(sep)` for a one-character separator. -/
def jsSplit (sep : Char) (s : String) : List String :=
  (splitCharAux sep s.data []).map List.asString

/-- JS `array.join(sep)` over strings with a one-character separator. -/
def joinSep (sep : Char) : List String → String
  | [] => ""
  | [s] => s
  | s :: rest => s ++ sep.toString ++ joinSep sep rest

/-- JS `s.replaceAll("//", "/")`: one left-to-right pass, continuing after
each replacement (so `"///"` becomes `"//"`). -/
def replaceDoubleSlashAux : List Char → List Char
  | '/' :: '/' :: rest => '/' :: replaceDoubleSlashAux rest
  | c :: rest => c :: replaceDoubleSlashAux rest
  | [] => []

/-- JS `s.replaceAll("//", "/")`. -/
def jsReplaceDoubleSlash (s : String) : String :=
  (replaceDoubleSlashAux s.data).asString

/-- JS `s.trim()`: strip whitespace from both ends. -/
def jsTrim (s : String) : String :=
  (((s.data.dropWhile isWsChar).reverse.dropWhile isWsChar).reverse).asString

/-- JS `s.toLowerCase()` (ASCII range, which covers locale codes). -/
def jsToLower (s : String) : String :=
  (s.data.map Char.toLower).asString

/-- JS `s.substring(0, n)`. -/
def jsTake (n : Nat) (s : String) : String :=
  (s.data.take n).asString

/-- JS `s.replace(/\/$/, "")`: drop a single trailing slash. -/
def stripTrailingSlash (s : String) : String :=
  match s.data.reverse with
  | '/' :: rest => rest.reverse.asString
  | _ => s

/-- JS `s.replace(/^\//, "")`: drop a single leading slash. -/
def stripLeadingSlash (s : String) : String :=
  match s.data with
  | '/' :: rest => rest.asString
  | _ => s

/-- Length of the run of whitespace characters at the head of a list. -/
def wsCount (cs : List Char) : Nat :=
  (cs.takeWhile isWsChar).length

/-! ## Node `path.posix` (external primitive)

`makeImagePersistencePlanWithoutBuffer` calls `Path.posix.join` on two
segments. This is Node's path library, an external collaborator; we model
`join` for two arguments: drop empty parts, join with "/", normalize. -/

/-- Resolve `.`/`..`/empty segments, Node `path.posix.normalize`'s core. -/
def normSegs (isAbs : Bool) : List String → List String → List String
  | [], acc => acc.reverse
  | seg :: rest, acc =>
    if seg = "" || seg = "." then normSegs isAbs rest acc
    else if seg = ".." then
      match acc with
      | top :: below => if top = ".." then normSegs isAbs rest (".." :: acc) else normSegs isAbs rest below
      | [] => if isAbs then normSegs isAbs rest [] else normSegs isAbs rest [".."]
    else normSegs isAbs rest (seg :: acc)

/-- Node `path.posix.normalize`, used by `join`. -/
def posixNormalize (p : String) : String :=
  if p = "" then "." else
  let isAbs := p.data.head? = some '/'
  let hasTrail := p.data.getLast? = some '/'
  let res := joinSep '/' (normSegs isAbs (jsSplit '/' p) [])
  let res1 := if isAbs then "/" ++ res else res
  let res2 := if res1 = "" then "." else res1
  if hasTrail && !(res2.data.getLast? = some '/') then res2 ++ "/" else res2

/-- Node `path.posix.join(a, b)`. -/
def posixJoin (a b : String) : String :=
  let joined := joinSep '/' (([a, b]).filter (· ≠ ""))
  if joined = "" then "." else posixNormalize joined

/-! ## Data model -/

/-- A fetch either rejects (transport failure / timeout) or resolves with a
response carrying a success flag, an HTTP status and a body. The module's
code never inspects `ok` or `status`. -/
inductive FetchResult where
  | reject
  | resolve (ok : Bool) (status : Nat) (body : List Nat)
deriving DecidableEq, Repr

/-- The external primitives the module calls: `fetch`, `FileType.fromBuffer`
sniffing, `crypto` SHA-256 (hex digest), JS `decodeURI`, the byte-content
naming used by the out-of-module `makeImagePersistencePlan`, and the
success/failure behaviour of `fs.rm`. -/
structure ExtDeps where
  fetchO : String → FetchResult
  sniff : List Nat → Option String
  sha256hex : String → String
  decodeURI : String → String
  contentHashName : List Nat → String
  rmOk : String → Bool

/-- The caller-owned options consumed by the module. -/
structure Cfg where
  imageFileNameFormat : String
  forceRefreshImages : Bool
deriving DecidableEq, Repr

/-- Page context supplied by the caller (`IDocuNotionContextPageInfo`). -/
structure PageInfo where
  slug : Option String
  directoryContainingMarkdown : String
  relativeFilePathToFolderContainingPage : String
deriving DecidableEq, Repr

/-- The module-level configuration set once by `initImageHandling`
(`imagePrefix`, `imageOutputPath`, `locales`); `locales` is `none` before
initialization (the `let locales: string[];` declaration). -/
structure ModuleCfg where
  imagePrefix : String
  imageOutputPath : String
  locales : Option (List String)
deriving DecidableEq, Repr

/-- One entry of `ImageSet.localizedUrls`. -/
structure LocalizedUrl where
  iso632Code : String
  url : String
deriving DecidableEq, Repr

/-- The `ImageSet` descriptor built by `parseImageBlock` and filled in by
the rest of the pipeline. -/
structure ImageSet where
  primaryUrl : String
  caption : String
  localizedUrls : List LocalizedUrl
  pageInfo : Option PageInfo := none
  primaryBuffer : Option (List Nat) := none
  fileType : Option String := none
  primaryFileOutputPath : Option String := none
  outputFileName : Option String := none
  filePathToUseInMarkdown : Option String := none
deriving DecidableEq, Repr

/-- The image block's source URL: `{file: {url}}` or `{external: {url}}`. -/
inductive ImageSource where
  | file (url : String)
  | externalSource (url : String)
deriving DecidableEq, Repr

/-- The fields of a notion image block the module reads: its source shape
and the caption's plain-text runs. -/
structure ImageBlockInput where
  source : ImageSource
  captionParts : List String
deriving DecidableEq, Repr

/-- One block together with its per-page context (`block.id`,
`context.pageInfo`). -/
structure Block where
  id : String
  image : ImageBlockInput
  pageInfo : PageInfo
deriving DecidableEq, Repr

/-- Observable pipeline events: a cache-gate decision on a target path
(recording whether the file existed and whether it was skipped), a network
fetch, and an asset write. -/
inductive Event where
  | check (path : String) (existed : Bool) (skipped : Bool)
  | fetch (url : String)
  | write (path : String) (bytes : List Nat)
deriving DecidableEq, Repr

/-- Run state: the set of existing files (the output tree), the module's
`existingImagesNotSeenYetInPull` registry, and the event trace. -/
structure St where
  fs : List String
  registry : List String
  trace : List Event
deriving DecidableEq, Repr

/-- Append an event to the trace. -/
def emit (st : St) (e : Event) : St :=
  { st with trace := st.trace ++ [e] }

/-- The module-level `let existingImagesNotSeenYetInPull: string[] = [];`
initializer. -/
def existingImagesNotSeenYetInPullInit : List String := []

/-- `initImageHandling`: strip one trailing slash from the prefix, record
the output path and the locale list. It never references the seen
registry, which is why its embedding neither takes nor returns one. -/
def initImageHandling (prefix_ outputPath : String) (incomingLocales : List String) : ModuleCfg :=
  { imagePrefix := stripTrailingSlash prefix_
    imageOutputPath := outputPath
    locales := some incomingLocales }

/-! ## Caption parsing (`parseImageBlock`)

The source applies the JS regex `/\s*(..)\s*(https:\/\/.*)/` to every
caption line with `.exec`, which searches for the leftmost match with
greedy, backtracking `\s*` quantifiers. We embed that search exactly:
`regexTryB` backtracks the second `\s*`, `regexTryA` the first, and
`execLocale` walks the start positions left to right. -/

/-- Whether the list starts with the literal `https://`. -/
def startsHttps (cs : List Char) : Bool :=
  ("https://".data).isPrefixOf cs

/-- Backtrack the second `\s*` of the pattern from `b` whitespace characters
down to zero; on success return the two captured characters and the capture
of `(https:\/\/.*)` (which stops at a line terminator, as `.` does). -/
def regexTryB (c12 : String) (rest : List Char) : Nat → Option (String × String)
  | 0 =>
    if startsHttps rest then some (c12, (rest.takeWhile isDotChar).asString) else none
  | b + 1 =>
    if startsHttps (rest.drop (b + 1)) then
      some (c12, ((rest.drop (b + 1)).takeWhile isDotChar).asString)
    else regexTryB c12 rest b

/-- One attempt of `(..)\s*(https:\/\/.*)` at the head of `cs`. -/
def regexAttempt2 (cs : List Char) : Option (String × String) :=
  match cs with
  | c1 :: c2 :: rest =>
    if isDotChar c1 && isDotChar c2 then
      regexTryB ([c1, c2]).asString rest (wsCount rest)
    else none
  | _ => none

/-- Backtrack the first `\s*` from `a` characters down to zero. -/
def regexTryA (cs : List Char) : Nat → Option (String × String)
  | 0 => regexAttempt2 cs
  | a + 1 =>
    match regexAttempt2 (cs.drop (a + 1)) with
    | some r => some r
    | none => regexTryA cs a

/-- Full match attempt of `/\s*(..)\s*(https:\/\/.*)/` anchored at the head
of `cs` (the leading `\s*` greedy, then backtracking). -/
def regexAttemptAt (cs : List Char) : Option (String × String) :=
  regexTryA cs (wsCount cs)

/-- `regex.exec(line)`: leftmost match of the unanchored pattern, returning
the two captures (the two-character group and the `https://...` group). -/
def execLocale : List Char → Option (String × String)
  | [] => none
  | c :: rest =>
    match regexAttemptAt (c :: rest) with
    | some r => some r
    | none => execLocale rest

/-- The body of the `lines.forEach` loop in `parseImageBlock`: a matching
line appends a localized-url entry (locale code lowercased), a
non-matching line is appended to the caption with a trailing space. -/
def processLine (iset : ImageSet) (l : String) : ImageSet :=
  match execLocale l.data with
  | some (c12, url) =>
    { iset with localizedUrls := iset.localizedUrls ++ [⟨jsToLower c12, url⟩] }
  | none => { iset with caption := iset.caption ++ l ++ " " }

/-- `parseImageBlock`: throws (`Error("Did you call initImageHandling()?")`)
when the locale list was never initialized; otherwise seeds one
localized-url placeholder per configured locale, takes the primary URL from
the block's `file`/`external` field, splits the merged caption on newlines,
processes every line, and trims the accumulated caption. -/
def parseImageBlock (locales : Option (List String)) (image : ImageBlockInput) :
    Except Unit ImageSet :=
  match locales with
  | none => .error ()
  | some ls =>
    let primary := match image.source with
      | .file url => url
      | .externalSource url => url
    let iset0 : ImageSet :=
      { primaryUrl := primary
        caption := ""
        localizedUrls := ls.map fun l => ⟨l, ""⟩ }
    let mergedCaption := String.join image.captionParts
    let lines := jsSplit '\n' mergedCaption
    let iset1 := lines.foldl processLine iset0
    .ok { iset1 with caption := jsTrim iset1.caption }

/-! ## Naming (`makeImagePersistencePlanWithoutBuffer` and helpers) -/

/-- `imageSet.primaryUrl.split("?")[0]`. -/
def urlBeforeQuery (u : String) : String :=
  (jsSplit '?' u).headD ""

/-- `urlBeforeQuery.split(".").pop()` with the `png` fallback: JS `pop` on
the (always non-empty) split result returns its last element, and the
fallback fires only when that element is the empty string. -/
def imageFileExtensionOf (u : String) : String :=
  let e := (jsSplit '.' (urlBeforeQuery u)).getLastD ""
  if e = "" then "png" else e

/-- Hex digit for the UUID regex `[0-9a-f]` with the `i` flag. -/
def isHexDigitCI (c : Char) : Bool :=
  ('0' ≤ c && c ≤ '9') || ('a' ≤ c && c ≤ 'f') || ('A' ≤ c && c ≤ 'F')

/-- Consume exactly `n` hex digits, returning them and the rest. -/
def takeHexN : Nat → List Char → Option (List Char × List Char)
  | 0, cs => some ([], cs)
  | _ + 1, [] => none
  | n + 1, c :: cs =>
    if isHexDigitCI c then
      (takeHexN n cs).map fun r => (c :: r.1, r.2)
    else none

/-- Consume a literal dash. -/
def expectDash : List Char → Option (List Char)
  | '-' :: rest => some rest
  | _ => none

/-- Match `[0-9a-f]{8}-[0-9a-f]{4}-[0-9a-f]{4}-[0-9a-f]{4}-[0-9a-f]{12}`
(case-insensitive) at the head of `cs`; on success return the matched
36 characters and the rest. -/
def matchUuid (cs : List Char) : Option (List Char × List Char) :=
  match takeHexN 8 cs with
  | none => none
  | some (g1, r1) =>
    match expectDash r1 with
    | none => none
    | some r1' =>
      match takeHexN 4 r1' with
      | none => none
      | some (g2, r2) =>
        match expectDash r2 with
        | none => none
        | some r2' =>
          match takeHexN 4 r2' with
          | none => none
          | some (g3, r3) =>
            match expectDash r3 with
            | none => none
            | some r3' =>
              match takeHexN 4 r3' with
              | none => none
              | some (g4, r4) =>
                match expectDash r4 with
                | none => none
                | some r4' =>
                  match takeHexN 12 r4' with
                  | none => none
                  | some (g5, r5) =>
                    some (g1 ++ '-' :: g2 ++ '-' :: g3 ++ '-' :: g4 ++ '-' :: g5, r5)

/-- The global scan of `url.match(uuidRegex)`: left to right, continuing
after each (fixed-length, hence non-overlapping) match. Fuel is the length
of the list, which bounds the number of scan steps. -/
def uuidScan : Nat → List Char → List String
  | 0, _ => []
  | _ + 1, [] => []
  | fuel + 1, c :: rest =>
    match matchUuid (c :: rest) with
    | some (m, rest') => m.asString :: uuidScan fuel rest'
    | none => uuidScan fuel rest

/-- `findLastUuid`: the last match of the global UUID regex, if any. -/
def findLastUuid (url : String) : Option String :=
  (uuidScan url.data.length url.data).getLast?

/-- `hashOfString`: first 8 hex characters of the SHA-256 of the input
(`crypto` is an external primitive, supplied through `ExtDeps`). -/
def hashOfString (ext : ExtDeps) (input : String) : String :=
  jsTake 8 (ext.sha256hex input)

/-- `makeImagePersistencePlanWithoutBuffer`: compute `outputFileName` (legacy
hash-of-url naming or default slug-and-block-id naming),
`primaryFileOutputPath` and `filePathToUseInMarkdown`. -/
def makeImagePersistencePlanWithoutBuffer (ext : ExtDeps) (options : Cfg)
    (iset : ImageSet) (imageBlockId : String)
    (imageOutputRootPath imagePrefix : String) : ImageSet :=
  let ubq := urlBeforeQuery iset.primaryUrl
  let imageFileExtension := imageFileExtensionOf iset.primaryUrl
  let outputFileName :=
    if options.imageFileNameFormat = "legacy" then
      let thingToHash := (findLastUuid ubq).getD ubq
      hashOfString ext thingToHash ++ "." ++ imageFileExtension
    else
      let pageSlugPart :=
        match iset.pageInfo.bind (·.slug) with
        | some s => if s = "" then "" else stripLeadingSlash s ++ "."
        | none => ""
      pageSlugPart ++ imageBlockId ++ "." ++ imageFileExtension
  let root :=
    if imageOutputRootPath.length > 0 then imageOutputRootPath
    else ((iset.pageInfo.map (·.directoryContainingMarkdown)).getD "")
  { iset with
    outputFileName := some outputFileName
    primaryFileOutputPath := some (posixJoin root (ext.decodeURI outputFileName))
    filePathToUseInMarkdown :=
      some ((if imagePrefix.length > 0 then imagePrefix else ".") ++ "/" ++ outputFileName) }

/-- Modelled from the spec: the out-of-module `makeImagePersistencePlan`
(the `content-hash` mode's planner, whose source file is not part of this
repository snapshot) derives the output filename from a hash of the
downloaded bytes — "collision-resistant, deterministic, stable across runs
for identical bytes" — and combines it with root and prefix exactly as the
path planner does. The byte-content naming itself is the abstract
`ExtDeps.contentHashName`. -/
def makeImagePersistencePlan (ext : ExtDeps) (_options : Cfg) (iset : ImageSet)
    (_imageBlockId : String) (imageOutputRootPath imagePrefix : String) : ImageSet :=
  let outputFileName := ext.contentHashName (iset.primaryBuffer.getD [])
  let root :=
    if imageOutputRootPath.length > 0 then imageOutputRootPath
    else ((iset.pageInfo.map (·.directoryContainingMarkdown)).getD "")
  { iset with
    outputFileName := some outputFileName
    primaryFileOutputPath := some (posixJoin root (ext.decodeURI outputFileName))
    filePathToUseInMarkdown :=
      some ((if imagePrefix.length > 0 then imagePrefix else ".") ++ "/" ++ outputFileName) }

/-! ## Seen registry, asset writing, fetch, save, orchestrator -/

/-- `imageWasSeen`: remove the path from
`existingImagesNotSeenYetInPull` (it only ever filters, never adds). -/
def imageWasSeen (path : String) (reg : List String) : List String :=
  reg.filter fun p => p ≠ path

/-- The localized output path built in `saveLocalizedImages`:
`./i18n/<code>/docusaurus-plugin-content-docs/current/<relative-folder>/<outputFileName>`
with `//` collapsed by `replaceAll`. -/
def localizedPathOf (iset : ImageSet) (iso632Code : String) : String :=
  let directory := "./i18n/" ++ iso632Code ++ "/docusaurus-plugin-content-docs/current/"
    ++ (iset.pageInfo.map (·.relativeFilePathToFolderContainingPage)).getD ""
  jsReplaceDoubleSlash (directory ++ "/" ++ iset.outputFileName.getD "")

/-- The external `writeAsset` (AssetWriter): durably write bytes at the
path. On the filesystem model this makes the path exist. -/
def writeAsset (path : String) (bytes : List Nat) (st : St) : St :=
  { st with
    fs := if st.fs.contains path then st.fs else path :: st.fs
    trace := st.trace ++ [.write path bytes] }

/-- `readPrimaryImage`: `await fetch(primaryUrl)` — a rejected promise
(transport failure / timeout) propagates; any resolved response has its
body buffered into `primaryBuffer` (the code never reads the status) and
sniffed by `FileType.fromBuffer`. -/
def readPrimaryImage (ext : ExtDeps) (iset : ImageSet) (st : St) :
    Except Unit (ImageSet × St) :=
  match ext.fetchO iset.primaryUrl with
  | .reject => .error ()
  | .resolve _ _ body =>
    .ok ({ iset with primaryBuffer := some body, fileType := ext.sniff body },
         emit st (.fetch iset.primaryUrl))

/-- `saveLocalizedImages`, written as the loop over `localizedUrls`: mark
the localized path as seen, skip if the file exists and refresh is not
forced; otherwise obtain bytes (fetch the override URL when non-empty,
else fall back to the primary bytes, fetching them first if they are not
in memory) and write them. -/
def saveLocalizedImages (ext : ExtDeps) (cfg : Cfg) :
    List LocalizedUrl → ImageSet → St → Except Unit (ImageSet × St)
  | [], iset, st => .ok (iset, st)
  | loc :: rest, iset, st =>
    let newPath := localizedPathOf iset loc.iso632Code
    let st1 := { st with registry := imageWasSeen newPath st.registry }
    if !cfg.forceRefreshImages && st1.fs.contains newPath then
      saveLocalizedImages ext cfg rest iset (emit st1 (.check newPath true true))
    else
      let st2 := emit st1 (.check newPath (st1.fs.contains newPath) false)
      if loc.url.length > 0 then
        match ext.fetchO loc.url with
        | .reject => .error ()
        | .resolve _ _ body =>
          saveLocalizedImages ext cfg rest iset
            (writeAsset newPath body (emit st2 (.fetch loc.url)))
      else
        match iset.primaryBuffer with
        | none =>
          match readPrimaryImage ext iset st2 with
          | .error _ => .error ()
          | .ok (iset', st3) =>
            saveLocalizedImages ext cfg rest iset'
              (writeAsset newPath (iset'.primaryBuffer.getD []) st3)
        | some b =>
          saveLocalizedImages ext cfg rest iset (writeAsset newPath b st2)

/-- `saveImage`: mark the primary path as seen, then the cache gate — skip
when refresh is not forced and the file exists, otherwise write the
buffered bytes — and then handle the localized images. -/
def saveImage (ext : ExtDeps) (cfg : Cfg) (iset : ImageSet) (st : St) :
    Except Unit (ImageSet × St) :=
  let primaryPath := iset.primaryFileOutputPath.getD ""
  let st1 := { st with registry := imageWasSeen primaryPath st.registry }
  if !cfg.forceRefreshImages && st1.fs.contains primaryPath then
    saveLocalizedImages ext cfg iset.localizedUrls iset
      (emit st1 (.check primaryPath true true))
  else
    let st2 := emit st1 (.check primaryPath (st1.fs.contains primaryPath) false)
    saveLocalizedImages ext cfg iset.localizedUrls iset
      (writeAsset primaryPath (iset.primaryBuffer.getD []) st2)

/-- `processImageBlock`: parse the block, attach the page context, and
branch on the naming mode. For `default`/`legacy` the filename is planned
without bytes; if refresh is not forced and the (truthy) primary path
already exists, the primary download is skipped — the path is marked as
seen and only localized images are handled; otherwise the primary is
fetched and saved. For `content-hash` the bytes are fetched first, then
the (external) `makeImagePersistencePlan` runs, then the image is saved. -/
def processImageBlock (ext : ExtDeps) (cfg : Cfg) (mcfg : ModuleCfg)
    (block : Block) (st : St) : Except Unit St :=
  match parseImageBlock mcfg.locales block.image with
  | .error _ => .error ()
  | .ok iset0 =>
    let iset1 := { iset0 with pageInfo := some block.pageInfo }
    if cfg.imageFileNameFormat ≠ "content-hash" then
      let iset2 := makeImagePersistencePlanWithoutBuffer ext cfg iset1 block.id
        mcfg.imageOutputPath mcfg.imagePrefix
      let primaryPath := iset2.primaryFileOutputPath.getD ""
      if !cfg.forceRefreshImages && primaryPath != "" && st.fs.contains primaryPath then
        let st1 := emit st (.check primaryPath true true)
        let st2 := { st1 with registry := imageWasSeen primaryPath st1.registry }
        match saveLocalizedImages ext cfg iset2.localizedUrls iset2 st2 with
        | .error _ => .error ()
        | .ok (_, st3) => .ok st3
      else
        match readPrimaryImage ext iset2 st with
        | .error _ => .error ()
        | .ok (iset3, st1) =>
          match saveImage ext cfg iset3 st1 with
          | .error _ => .error ()
          | .ok (_, st2) => .ok st2
    else
      match readPrimaryImage ext iset1 st with
      | .error _ => .error ()
      | .ok (iset2, st1) =>
        let iset3 := makeImagePersistencePlan ext cfg iset2 block.id
          mcfg.imageOutputPath mcfg.imagePrefix
        match saveImage ext cfg iset3 st1 with
        | .error _ => .error ()
        | .ok (_, st2) => .ok st2

/-- The in-place block mutation at the end of `processImageBlock`: the
`file`/`external` URL is replaced by `filePathToUseInMarkdown`, the caption
by a single cleaned text run, or emptied when no caption text remains. -/
def rewrittenImage (image : ImageBlockInput) (iset : ImageSet) : ImageBlockInput :=
  { source :=
      match image.source with
      | .file _ => .file (iset.filePathToUseInMarkdown.getD "")
      | .externalSource _ => .externalSource (iset.filePathToUseInMarkdown.getD "")
    captionParts := if iset.caption ≠ "" then [iset.caption] else [] }

/-- One pipeline run: process the blocks in order; a failed block aborts
the run (no retry). -/
def runBlocks (ext : ExtDeps) (cfg : Cfg) (mcfg : ModuleCfg) :
    List Block → St → Except Unit St
  | [], st => .ok st
  | b :: bs, st =>
    match processImageBlock ext cfg mcfg b st with
    | .error _ => .error ()
    | .ok st' => runBlocks ext cfg mcfg bs st'

/-- `cleanupOldImages`: `for (const p of registry) await fs.rm(p)` — no
try/catch, so a failing deletion throws out of the loop. The result is the
list of paths deleted before any failure, and whether the sweep ran to
completion. -/
def cleanupOldImages (ext : ExtDeps) : List String → (List String × Bool)
  | [] => ([], true)
  | p :: rest =>
    if ext.rmOk p then
      let r := cleanupOldImages ext rest
      (p :: r.1, r.2)
    else ([], false)

/-! ## Trace and result observers -/

/-- Whether the run succeeded. -/
def exceptOk : Except Unit St → Bool
  | .ok _ => true
  | .error _ => false

/-- The trace of a run result (empty for a failed run). -/
def traceOf : Except Unit St → List Event
  | .ok st => st.trace
  | .error _ => []

/-- The filesystem of a run result. -/
def fsOf : Except Unit St → List String
  | .ok st => st.fs
  | .error _ => []

/-- The registry of a run result. -/
def regOf : Except Unit St → List String
  | .ok st => st.registry
  | .error _ => []

/-- Number of network fetches in a trace. -/
def countFetches (tr : List Event) : Nat :=
  tr.countP fun e => match e with | .fetch _ => true | _ => false

/-- Number of asset writes in a trace. -/
def countWrites (tr : List Event) : Nat :=
  tr.countP fun e => match e with | .write _ _ => true | _ => false

/-- Number of skip decisions in a trace. -/
def countSkips (tr : List Event) : Nat :=
  tr.countP fun e => match e with | .check _ _ true => true | _ => false

/-- Whether the event is a cache-gate decision that returned skip. -/
def isSkippedCheck : Event → Bool
  | .check _ _ true => true
  | _ => false

/-- The CacheGate contract for one event: a decision returns skip exactly
when refresh is not forced and the file existed. -/
def checkConsistent (force : Bool) : Event → Bool
  | .check _ existed skipped => skipped == (!force && existed)
  | _ => true

/-- The target paths a block plans in default/legacy mode: the primary
output path and the localized path of every localized-url entry. -/
def plannedPaths (ext : ExtDeps) (cfg : Cfg) (mcfg : ModuleCfg) (b : Block) :
    List String :=
  match parseImageBlock mcfg.locales b.image with
  | .error _ => []
  | .ok is =>
    let iset := makeImagePersistencePlanWithoutBuffer ext cfg
      { is with pageInfo := some b.pageInfo } b.id mcfg.imageOutputPath mcfg.imagePrefix
    iset.primaryFileOutputPath.getD "" ::
      iset.localizedUrls.map fun loc => localizedPathOf iset loc.iso632Code

/-! ## Basic state lemmas -/

@[simp] lemma emit_fs (st : St) (e : Event) : (emit st e).fs = st.fs := rfl

@[simp] lemma emit_registry (st : St) (e : Event) : (emit st e).registry = st.registry := rfl

@[simp] lemma emit_trace (st : St) (e : Event) : (emit st e).trace = st.trace ++ [e] := rfl

@[simp] lemma writeAsset_registry (p : String) (b : List Nat) (st : St) :
    (writeAsset p b st).registry = st.registry := rfl

@[simp] lemma writeAsset_trace (p : String) (b : List Nat) (st : St) :
    (writeAsset p b st).trace = st.trace ++ [.write p b] := rfl

lemma writeAsset_fs_mono (p : String) (b : List Nat) (st : St) :
    st.fs ⊆ (writeAsset p b st).fs := by
  simp only [writeAsset]
  split
  · exact fun x hx => hx
  · exact fun x hx => List.mem_cons_of_mem _ hx

lemma mem_writeAsset_fs (p : String) (b : List Nat) (st : St) :
    p ∈ (writeAsset p b st).fs := by
  simp only [writeAsset]
  split
  · rename_i h
    exact List.mem_of_elem_eq_true h
  · exact List.mem_cons_self _ _

lemma imageWasSeen_subset (path : String) (reg : List String) :
    imageWasSeen path reg ⊆ reg := by
  intro x hx
  exact (List.mem_filter.1 hx).1

lemma not_mem_imageWasSeen (path : String) (reg : List String) :
    path ∉ imageWasSeen path reg := by
  intro h
  have h2 := (List.mem_filter.1 h).2
  simp at h2

lemma mem_imageWasSeen_of_mem_of_ne {q path : String} {reg : List String}
    (hq : q ∈ reg) (hne : q ≠ path) : q ∈ imageWasSeen path reg := by
  simp only [imageWasSeen, List.mem_filter]
  exact ⟨hq, by simpa using hne⟩

lemma readPrimaryImage_ok {ext : ExtDeps} {iset iset' : ImageSet} {st st' : St}
    (h : readPrimaryImage ext iset st = .ok (iset', st')) :
    st'.fs = st.fs ∧ st'.registry = st.registry ∧
      st'.trace = st.trace ++ [.fetch iset.primaryUrl] ∧
      iset'.pageInfo = iset.pageInfo ∧ iset'.outputFileName = iset.outputFileName ∧
      iset'.localizedUrls = iset.localizedUrls ∧
      iset'.primaryFileOutputPath = iset.primaryFileOutputPath := by
  unfold readPrimaryImage at h
  rcases hf : ext.fetchO iset.primaryUrl with _ | ⟨ok, status, body⟩ <;> rw [hf] at h
  · exact absurd h (by simp)
  · rcases h with ⟨⟩
    exact ⟨rfl, rfl, rfl, rfl, rfl, rfl, rfl⟩

/-- `localizedPathOf` depends only on the page context and the output file
name, so the buffer/file-type updates of `readPrimaryImage` preserve it. -/
lemma localizedPathOf_congr {a b : ImageSet} (hp : a.pageInfo = b.pageInfo)
    (hn : a.outputFileName = b.outputFileName) (c : String) :
    localizedPathOf a c = localizedPathOf b c := by
  unfold localizedPathOf
  rw [hp, hn]

/-! ## Filesystem monotonicity and registry antitonicity -/

lemma saveLocalizedImages_mono {ext : ExtDeps} {cfg : Cfg} :
    ∀ {locs : List LocalizedUrl} {iset iset' : ImageSet} {st st' : St},
      saveLocalizedImages ext cfg locs iset st = .ok (iset', st') →
      st.fs ⊆ st'.fs ∧ st'.registry ⊆ st.registry := by
  intro locs
  induction locs with
  | nil =>
    intro iset iset' st st' h
    simp only [saveLocalizedImages] at h
    rcases h with ⟨⟩
    exact ⟨fun x hx => hx, fun x hx => hx⟩
  | cons loc rest ih =>
    intro iset iset' st st' h
    simp only [saveLocalizedImages] at h
    split at h
    · -- skip branch
      have h2 := ih h
      refine ⟨fun x hx => h2.1 (by simpa using hx), fun x hx => ?_⟩
      exact imageWasSeen_subset _ _ (by simpa using h2.2 hx)
    · split at h
      · -- override url fetch
        rcases hf : ext.fetchO loc.url with _ | ⟨ok, status, body⟩ <;> rw [hf] at h
        · exact absurd h (by simp)
        · have h2 := ih h
          refine ⟨fun x hx => h2.1 (writeAsset_fs_mono _ _ _ (by simpa using hx)), fun x hx => ?_⟩
          exact imageWasSeen_subset _ _ (by simpa using h2.2 hx)
      · -- fallback to primary bytes
        rcases hb : iset.primaryBuffer with _ | b <;> rw [hb] at h
        · rcases hr : readPrimaryImage ext iset
              (emit { st with registry := imageWasSeen (localizedPathOf iset loc.iso632Code) st.registry }
                (.check (localizedPathOf iset loc.iso632Code)
                  (List.contains (St.fs { st with registry := imageWasSeen (localizedPathOf iset loc.iso632Code) st.registry }) (localizedPathOf iset loc.iso632Code)) false))
              with _ | ⟨iset2, st2⟩ <;> rw [hr] at h
          · exact absurd h (by simp)
          · have hro := readPrimaryImage_ok hr
            have h2 := ih h
            constructor
            · intro x hx
              exact h2.1 (writeAsset_fs_mono _ _ _ (by rw [hro.1]; simpa using hx))
            · intro x hx
              have := h2.2 hx
              rw [writeAsset_registry, hro.2.1] at this
              exact imageWasSeen_subset _ _ (by simpa using this)
        · have h2 := ih h
          refine ⟨fun x hx => h2.1 (writeAsset_fs_mono _ _ _ (by simpa using hx)), fun x hx => ?_⟩
          exact imageWasSeen_subset _ _ (by simpa using h2.2 hx)

lemma saveImage_mono {ext : ExtDeps} {cfg : Cfg} {iset iset' : ImageSet} {st st' : St}
    (h : saveImage ext cfg iset st = .ok (iset', st')) :
    st.fs ⊆ st'.fs ∧ st'.registry ⊆ st.registry := by
  simp only [saveImage] at h
  split at h
  · have h2 := saveLocalizedImages_mono h
    refine ⟨fun x hx => h2.1 (by simpa using hx), fun x hx => ?_⟩
    exact imageWasSeen_subset _ _ (by simpa using h2.2 hx)
  · have h2 := saveLocalizedImages_mono h
    refine ⟨fun x hx => h2.1 (writeAsset_fs_mono _ _ _ (by simpa using hx)), fun x hx => ?_⟩
    exact imageWasSeen_subset _ _ (by simpa using h2.2 hx)

lemma processImageBlock_mono {ext : ExtDeps} {cfg : Cfg} {mcfg : ModuleCfg}
    {b : Block} {st : St} {st' : St}
    (h : processImageBlock ext cfg mcfg b st = .ok st') :
    st.fs ⊆ st'.fs ∧ st'.registry ⊆ st.registry := by
  simp only [processImageBlock] at h
  split at h
  · exact absurd h (by simp)
  · rename_i iset0 hparse
    split at h
    · -- default/legacy mode
      split at h
      · -- primary skip branch
        split at h
        · exact absurd h (by simp)
        · rename_i p1 hsave
          rcases h with ⟨⟩
          have h2 := saveLocalizedImages_mono hsave
          refine ⟨fun x hx => h2.1 (by simpa using hx), fun x hx => ?_⟩
          exact imageWasSeen_subset _ _ (by simpa using h2.2 hx)
      · -- primary fetch-and-save branch
        split at h
        · exact absurd h (by simp)
        · rename_i p1 hread
          split at h
          · exact absurd h (by simp)
          · rename_i p2 hsave
            rcases h with ⟨⟩
            have hro := readPrimaryImage_ok hread
            have h2 := saveImage_mono hsave
            refine ⟨fun x hx => h2.1 (by rw [hro.1]; exact hx), fun x hx => ?_⟩
            have := h2.2 hx
            rwa [hro.2.1] at this
    · -- content-hash mode
      split at h
      · exact absurd h (by simp)
      · rename_i p1 hread
        split at h
        · exact absurd h (by simp)
        · rename_i p2 hsave
          rcases h with ⟨⟩
          have hro := readPrimaryImage_ok hread
          have h2 := saveImage_mono hsave
          refine ⟨fun x hx => h2.1 (by rw [hro.1]; exact hx), fun x hx => ?_⟩
          have := h2.2 hx
          rwa [hro.2.1] at this

lemma runBlocks_mono {ext : ExtDeps} {cfg : Cfg} {mcfg : ModuleCfg} :
    ∀ {blocks : List Block} {st st' : St},
      runBlocks ext cfg mcfg blocks st = .ok st' →
      st.fs ⊆ st'.fs ∧ st'.registry ⊆ st.registry := by
  intro blocks
  induction blocks with
  | nil =>
    intro st st' h
    simp only [runBlocks] at h
    rcases h with ⟨⟩
    exact ⟨fun x hx => hx, fun x hx => hx⟩
  | cons b bs ih =>
    intro st st' h
    simp only [runBlocks] at h
    split at h
    · exact absurd h (by simp)
    · rename_i st1 hproc
      have h1 := processImageBlock_mono hproc
      have h2 := ih h
      exact ⟨fun x hx => h2.1 (h1.1 hx), fun x hx => h1.2 (h2.2 hx)⟩

/-! ## The mark-and-sweep invariant: every checked path has been removed
from the seen registry. -/

/-- Every path that has a cache-gate decision in the trace is no longer in
the registry. -/
def regInv (st : St) : Prop :=
  ∀ p ex sk, Event.check p ex sk ∈ st.trace → p ∉ st.registry

lemma regInv_mk_empty (fs reg : List String) : regInv ⟨fs, reg, []⟩ := by
  intro p ex sk hp
  simp at hp

/-- Marking a path as seen and then recording its gate decision preserves
the invariant (the two updates commute, so this covers both orders in the
source). -/
lemma regInv_mark_check {st : St} (q : String) (ex sk : Bool) (h : regInv st) :
    regInv (emit { st with registry := imageWasSeen q st.registry } (.check q ex sk)) := by
  intro p e s hp
  simp only [emit_trace, List.mem_append, List.mem_singleton] at hp
  rcases hp with hp | hp
  · intro hmem
    exact h p e s hp (imageWasSeen_subset _ _ (by simpa using hmem))
  · rcases hp with ⟨⟩
    simpa using not_mem_imageWasSeen q st.registry

lemma regInv_writeAsset {st : St} (p : String) (b : List Nat) (h : regInv st) :
    regInv (writeAsset p b st) := by
  intro q e s hq
  simp only [writeAsset_trace, List.mem_append, List.mem_singleton] at hq
  rcases hq with hq | hq
  · simpa using h q e s hq
  · exact absurd hq (by simp)

lemma regInv_emit_fetch {st : St} (u : String) (h : regInv st) :
    regInv (emit st (.fetch u)) := by
  intro q e s hq
  simp only [emit_trace, List.mem_append, List.mem_singleton] at hq
  rcases hq with hq | hq
  · simpa using h q e s hq
  · exact absurd hq (by simp)

lemma saveLocalizedImages_regInv {ext : ExtDeps} {cfg : Cfg} :
    ∀ {locs : List LocalizedUrl} {iset iset' : ImageSet} {st st' : St},
      saveLocalizedImages ext cfg locs iset st = .ok (iset', st') →
      regInv st → regInv st' := by
  intro locs
  induction locs with
  | nil =>
    intro iset iset' st st' h hinv
    simp only [saveLocalizedImages] at h
    rcases h with ⟨⟩
    exact hinv
  | cons loc rest ih =>
    intro iset iset' st st' h hinv
    simp only [saveLocalizedImages] at h
    split at h
    · exact ih h (regInv_mark_check _ _ _ hinv)
    · split at h
      · split at h
        · exact absurd h (by simp)
        · exact ih h (regInv_writeAsset _ _ (regInv_emit_fetch _ (regInv_mark_check _ _ _ hinv)))
      · split at h
        · split at h
          · exact absurd h (by simp)
          · rename_i iset2 st2 hread
            refine ih h ?_
            have hro := readPrimaryImage_ok hread
            have h1 := regInv_mark_check (localizedPathOf iset loc.iso632Code)
              (st.fs.contains (localizedPathOf iset loc.iso632Code)) false hinv
            have h2 := regInv_emit_fetch iset.primaryUrl h1
            have hbase : regInv st2 := by
              intro q e s hq
              rw [hro.2.1]
              rw [hro.2.2.1] at hq
              exact h2 q e s (by simpa using hq)
            exact regInv_writeAsset _ _ hbase
        · exact ih h (regInv_writeAsset _ _ (regInv_mark_check _ _ _ hinv))

lemma saveImage_regInv {ext : ExtDeps} {cfg : Cfg} {iset iset' : ImageSet} {st st' : St}
    (h : saveImage ext cfg iset st = .ok (iset', st')) (hinv : regInv st) :
    regInv st' := by
  simp only [saveImage] at h
  split at h
  · exact saveLocalizedImages_regInv h (regInv_mark_check _ _ _ hinv)
  · exact saveLocalizedImages_regInv h (regInv_writeAsset _ _ (regInv_mark_check _ _ _ hinv))

lemma processImageBlock_regInv {ext : ExtDeps} {cfg : Cfg} {mcfg : ModuleCfg}
    {b : Block} {st st' : St}
    (h : processImageBlock ext cfg mcfg b st = .ok st') (hinv : regInv st) :
    regInv st' := by
  simp only [processImageBlock] at h
  split at h
  · exact absurd h (by simp)
  · rename_i iset0 hparse
    split at h
    · split at h
      · split at h
        · exact absurd h (by simp)
        · rename_i p1 hsave
          rcases h with ⟨⟩
          exact saveLocalizedImages_regInv hsave (regInv_mark_check _ _ _ hinv)
      · split at h
        · exact absurd h (by simp)
        · rename_i p1 hread
          split at h
          · exact absurd h (by simp)
          · rename_i p2 hsave
            rcases h with ⟨⟩
            have hro := readPrimaryImage_ok hread
            refine saveImage_regInv hsave ?_
            intro q e s hq
            rw [hro.2.1]
            rw [hro.2.2.1] at hq
            simp only [emit_trace, List.mem_append, List.mem_singleton] at hq
            rcases hq with hq | hq
            · exact hinv q e s hq
            · exact absurd hq (by simp)
    · split at h
      · exact absurd h (by simp)
      · rename_i p1 hread
        split at h
        · exact absurd h (by simp)
        · rename_i p2 hsave
          rcases h with ⟨⟩
          have hro := readPrimaryImage_ok hread
          refine saveImage_regInv hsave ?_
          intro q e s hq
          rw [hro.2.1]
          rw [hro.2.2.1] at hq
          simp only [emit_trace, List.mem_append, List.mem_singleton] at hq
          rcases hq with hq | hq
          · exact hinv q e s hq
          · exact absurd hq (by simp)

lemma runBlocks_regInv {ext : ExtDeps} {cfg : Cfg} {mcfg : ModuleCfg} :
    ∀ {blocks : List Block} {st st' : St},
      runBlocks ext cfg mcfg blocks st = .ok st' → regInv st → regInv st' := by
  intro blocks
  induction blocks with
  | nil =>
    intro st st' h hinv
    simp only [runBlocks] at h
    rcases h with ⟨⟩
    exact hinv
  | cons b bs ih =>
    intro st st' h hinv
    simp only [runBlocks] at h
    split at h
    · exact absurd h (by simp)
    · rename_i st1 hproc
      exact ih h (processImageBlock_regInv hproc hinv)

/-- Sweeping a registry whose deletions all succeed deletes exactly the
registry, in order, and completes. -/
lemma cleanupOldImages_all_ok {ext : ExtDeps} :
    ∀ {reg : List String}, (∀ p ∈ reg, ext.rmOk p = true) →
      cleanupOldImages ext reg = (reg, true) := by
  intro reg
  induction reg with
  | nil => intro _; rfl
  | cons p rest ih =>
    intro hall
    simp [cleanupOldImages, hall p (List.mem_cons_self _ _),
      ih fun q hq => hall q (List.mem_cons_of_mem _ hq)]

/-- Sweeping a registry aborts at the first failing deletion: everything
before it is deleted, nothing after it is attempted. -/
lemma cleanupOldImages_aborts {ext : ExtDeps} :
    ∀ {pre : List String} (p : String) (post : List String),
      (∀ q ∈ pre, ext.rmOk q = true) → ext.rmOk p = false →
      cleanupOldImages ext (pre ++ p :: post) = (pre, false) := by
  intro pre
  induction pre with
  | nil =>
    intro p post _ hp
    simp [cleanupOldImages, hp]
  | cons q rest ih =>
    intro p post hall hp
    simp [cleanupOldImages, hall q (List.mem_cons_self _ _),
      ih p post (fun r hr => hall r (List.mem_cons_of_mem _ hr)) hp]

/-- Concrete external dependencies used by the concrete runs below: every
fetch resolves successfully with body `[7]`, sniffing reports `png`,
deletion always succeeds. -/
def sampleExt : ExtDeps :=
  { fetchO := fun _ => .resolve true 200 [7]
    sniff := fun _ => some "png"
    sha256hex := fun _ => "0123abcd4567ef89"
    decodeURI := fun s => s
    contentHashName := fun _ => "h"
    rmOk := fun _ => true }

/-! ## C3 -/

/-- C3: mark-and-sweep bookkeeping — every path on which the pipeline
performs an existence check during a run (primary or localized, whether
the decision was skip or write) is removed from the seen registry's
not-yet-seen set, and `cleanupOldImages` deletes exactly the paths still
remaining in that set (assuming the deletions themselves succeed). -/
theorem c3_mark_and_sweep (ext : ExtDeps) (cfg : Cfg) (mcfg : ModuleCfg)
    (blocks : List Block) (fs0 reg0 : List String) (st' : St)
    (h : runBlocks ext cfg mcfg blocks ⟨fs0, reg0, []⟩ = .ok st')
    (hrm : ∀ p ∈ st'.registry, ext.rmOk p = true) :
    (∀ p ex sk, Event.check p ex sk ∈ st'.trace → p ∉ st'.registry) ∧
    cleanupOldImages ext st'.registry = (st'.registry, true) :=
  ⟨fun p ex sk hp => runBlocks_regInv h (regInv_mk_empty _ _) p ex sk hp,
   cleanupOldImages_all_ok hrm⟩

/-- C3 witness data: one concrete block processed against a registry
holding one stale path. -/
def c3blk : Block := ⟨"b1", ⟨.file "https://e.com/a.png", []⟩, ⟨none, "d", "r"⟩⟩

/-- C3 witness data: the module configuration. -/
def c3mcfg : ModuleCfg := initImageHandling "" "img" []

/-- C3 witness data: the final state of the concrete run. -/
def c3st : St :=
  match runBlocks sampleExt ⟨"default", false⟩ c3mcfg [c3blk] ⟨[], ["img/stale.png"], []⟩ with
  | .ok st => st
  | .error _ => ⟨[], [], []⟩

/-- C3 witness: the theorem applied to the concrete run. -/
theorem c3_mark_and_sweep_witness :
    (∀ p ex sk, Event.check p ex sk ∈ c3st.trace → p ∉ c3st.registry) ∧
    cleanupOldImages sampleExt c3st.registry = (c3st.registry, true) :=
  c3_mark_and_sweep sampleExt ⟨"default", false⟩ c3mcfg [c3blk] [] ["img/stale.png"] c3st
    (by rfl) (by decide)

/-! ## C4 -/

/-- C4: no operation of the module ever adds a path to the seen registry —
it is initialized empty, `imageWasSeen` only removes entries (on the empty
registry it yields the empty registry), any run that starts from the
module's initial registry ends with an empty registry, and
`cleanupOldImages` on that registry deletes nothing and completes. -/
theorem c4_registry_never_grows :
    existingImagesNotSeenYetInPullInit = [] ∧
    (∀ path, imageWasSeen path existingImagesNotSeenYetInPullInit =
      existingImagesNotSeenYetInPullInit) ∧
    (∀ ext cfg mcfg blocks fs0,
      regOf (runBlocks ext cfg mcfg blocks ⟨fs0, existingImagesNotSeenYetInPullInit, []⟩) = []) ∧
    (∀ ext, cleanupOldImages ext existingImagesNotSeenYetInPullInit = ([], true)) := by
  refine ⟨rfl, fun path => rfl, fun ext cfg mcfg blocks fs0 => ?_, fun ext => rfl⟩
  rcases hr : runBlocks ext cfg mcfg blocks ⟨fs0, existingImagesNotSeenYetInPullInit, []⟩
    with _ | st'
  · rfl
  · have hsub := (runBlocks_mono hr).2
    simp only [regOf]
    refine List.eq_nil_iff_forall_not_mem.2 fun x hx => ?_
    have := hsub hx
    simp only [existingImagesNotSeenYetInPullInit] at this
    simp at this

/-! ## C5 -/

/-- C5 counterexample data: deleting `"b"` fails, everything else
succeeds. -/
def c5ext : ExtDeps :=
  { fetchO := fun _ => .reject
    sniff := fun _ => none
    sha256hex := fun _ => ""
    decodeURI := fun s => s
    contentHashName := fun _ => ""
    rmOk := fun p => p != "b" }

/-- C5 counterexample: with stale paths `["a", "b", "c"]` and a deletion
failure on `"b"`, the sweep deletes only `"a"` and signals the propagated
error — `"c"` is deletable but never attempted, so a failed deletion does
abort the sweep, contrary to the claim. -/
theorem c5_counterexample :
    cleanupOldImages c5ext ["a", "b", "c"] = (["a"], false) ∧ c5ext.rmOk "c" = true := by
  decide

/-- C5 amended: a deletion failure during the garbage-collection sweep
propagates out of `cleanupOldImages` (there is no try/catch): the paths
before the failing one are deleted, the sweep aborts there, and the
remaining paths are not attempted. -/
theorem c5_cleanup_aborts (ext : ExtDeps) (pre : List String) (p : String)
    (post : List String) (hall : ∀ q ∈ pre, ext.rmOk q = true)
    (hp : ext.rmOk p = false) :
    cleanupOldImages ext (pre ++ p :: post) = (pre, false) :=
  cleanupOldImages_aborts p post hall hp

/-- C5 witness: the amended theorem applied to the concrete failing
sweep. -/
theorem c5_cleanup_aborts_witness :
    cleanupOldImages c5ext (["a"] ++ "b" :: ["c"]) = (["a"], false) :=
  c5_cleanup_aborts c5ext ["a"] "b" ["c"] (by decide) (by decide)

/-! ## C2: the cache-gate contract -/

/-- The number of localized-url entries a block parses to (zero if parsing
fails). -/
def numLocalizedUrls (mcfg : ModuleCfg) (b : Block) : Nat :=
  match parseImageBlock mcfg.locales b.image with
  | .ok is => is.localizedUrls.length
  | .error _ => 0

@[simp] lemma countWrites_append (a b : List Event) :
    countWrites (a ++ b) = countWrites a + countWrites b :=
  List.countP_append _ _ _

@[simp] lemma countSkips_append (a b : List Event) :
    countSkips (a ++ b) = countSkips a + countSkips b :=
  List.countP_append _ _ _

@[simp] lemma countFetches_append (a b : List Event) :
    countFetches (a ++ b) = countFetches a + countFetches b :=
  List.countP_append _ _ _

@[simp] lemma countWrites_check (p : String) (ex sk : Bool) :
    countWrites [.check p ex sk] = 0 := rfl

@[simp] lemma countWrites_fetch (u : String) : countWrites [.fetch u] = 0 := rfl

@[simp] lemma countWrites_write (p : String) (b : List Nat) :
    countWrites [.write p b] = 1 := rfl

@[simp] lemma countSkips_check_false (p : String) (ex : Bool) :
    countSkips [.check p ex false] = 0 := rfl

@[simp] lemma countSkips_fetch (u : String) : countSkips [.fetch u] = 0 := rfl

@[simp] lemma countSkips_write (p : String) (b : List Nat) :
    countSkips [.write p b] = 0 := rfl

@[simp] lemma countFetches_check (p : String) (ex sk : Bool) :
    countFetches [.check p ex sk] = 0 := rfl

@[simp] lemma countFetches_fetch (u : String) : countFetches [.fetch u] = 1 := rfl

@[simp] lemma countFetches_write (p : String) (b : List Nat) :
    countFetches [.write p b] = 0 := rfl

/-- Every cache-gate decision recorded by `saveLocalizedImages` obeys the
gate contract: skip exactly when refresh is not forced and the file
existed. -/
lemma saveLocalizedImages_checks {ext : ExtDeps} {cfg : Cfg} :
    ∀ {locs : List LocalizedUrl} {iset iset' : ImageSet} {st st' : St},
      saveLocalizedImages ext cfg locs iset st = .ok (iset', st') →
      (∀ e ∈ st.trace, checkConsistent cfg.forceRefreshImages e = true) →
      (∀ e ∈ st'.trace, checkConsistent cfg.forceRefreshImages e = true) := by
  intro locs
  induction locs with
  | nil =>
    intro iset iset' st st' h hc
    simp only [saveLocalizedImages] at h
    rcases h with ⟨⟩
    exact hc
  | cons loc rest ih =>
    intro iset iset' st st' h hc
    simp only [saveLocalizedImages] at h
    split at h
    · rename_i hcond
      refine ih h ?_
      intro e he
      simp only [emit_trace, List.mem_append, List.mem_singleton] at he
      rcases he with he | he
      · exact hc e he
      · rcases he with ⟨⟩
        have hf : (!cfg.forceRefreshImages) = true := by
          simp only [Bool.and_eq_true] at hcond
          exact hcond.1
        simp [checkConsistent, hf]
    · rename_i hcond
      have hcond' : (!cfg.forceRefreshImages &&
          st.fs.contains (localizedPathOf iset loc.iso632Code)) = false :=
        Bool.of_not_eq_true hcond
      have hstep : ∀ e ∈ (emit { st with
          registry := imageWasSeen (localizedPathOf iset loc.iso632Code) st.registry }
          (.check (localizedPathOf iset loc.iso632Code)
            (st.fs.contains (localizedPathOf iset loc.iso632Code)) false)).trace,
          checkConsistent cfg.forceRefreshImages e = true := by
        intro e he
        simp only [emit_trace, List.mem_append, List.mem_singleton] at he
        rcases he with he | he
        · exact hc e he
        · rcases he with ⟨⟩
          simp only [checkConsistent]
          rw [hcond']
          rfl
      split at h
      · split at h
        · exact absurd h (by simp)
        · refine ih h ?_
          intro e he
          simp only [writeAsset_trace, emit_trace, List.mem_append, List.mem_singleton] at he
          rcases he with (he | he) | he
          · rcases he with he | he
            · exact hstep e (List.mem_append.2 (Or.inl he))
            · exact hstep e (List.mem_append.2 (Or.inr (List.mem_singleton.2 he)))
          · rcases he with ⟨⟩; rfl
          · rcases he with ⟨⟩; rfl
      · split at h
        · split at h
          · exact absurd h (by simp)
          · rename_i iset2 st2 hread
            refine ih h ?_
            have hro := readPrimaryImage_ok hread
            intro e he
            simp only [writeAsset_trace, List.mem_append, List.mem_singleton] at he
            rcases he with he | he
            · rw [hro.2.2.1] at he
              simp only [List.mem_append, List.mem_singleton] at he
              rcases he with he | he
              · exact hstep e he
              · rcases he with ⟨⟩; rfl
            · rcases he with ⟨⟩; rfl
        · refine ih h ?_
          intro e he
          simp only [writeAsset_trace, List.mem_append, List.mem_singleton] at he
          rcases he with he | he
          · exact hstep e he
          · rcases he with ⟨⟩; rfl

/-- Every gate decision recorded by `saveImage` obeys the gate contract. -/
lemma saveImage_checks {ext : ExtDeps} {cfg : Cfg} {iset iset' : ImageSet} {st st' : St}
    (h : saveImage ext cfg iset st = .ok (iset', st'))
    (hc : ∀ e ∈ st.trace, checkConsistent cfg.forceRefreshImages e = true) :
    ∀ e ∈ st'.trace, checkConsistent cfg.forceRefreshImages e = true := by
  simp only [saveImage] at h
  split at h
  · rename_i hcond
    refine saveLocalizedImages_checks h ?_
    intro e he
    simp only [emit_trace, List.mem_append, List.mem_singleton] at he
    rcases he with he | he
    · exact hc e he
    · rcases he with ⟨⟩
      have hf : (!cfg.forceRefreshImages) = true := by
        simp only [Bool.and_eq_true] at hcond
        exact hcond.1
      simp [checkConsistent, hf]
  · rename_i hcond
    have hcond' : (!cfg.forceRefreshImages &&
        st.fs.contains (iset.primaryFileOutputPath.getD "")) = false :=
      Bool.of_not_eq_true hcond
    refine saveLocalizedImages_checks h ?_
    intro e he
    simp only [writeAsset_trace, emit_trace, List.mem_append, List.mem_singleton] at he
    rcases he with (he | he) | he
    · exact hc e he
    · rcases he with ⟨⟩
      simp only [checkConsistent]
      rw [hcond']
      rfl
    · rcases he with ⟨⟩; rfl

/-- Every gate decision recorded by `processImageBlock` obeys the gate
contract. -/
lemma processImageBlock_checks {ext : ExtDeps} {cfg : Cfg} {mcfg : ModuleCfg}
    {b : Block} {st st' : St}
    (h : processImageBlock ext cfg mcfg b st = .ok st')
    (hc : ∀ e ∈ st.trace, checkConsistent cfg.forceRefreshImages e = true) :
    ∀ e ∈ st'.trace, checkConsistent cfg.forceRefreshImages e = true := by
  simp only [processImageBlock] at h
  split at h
  · exact absurd h (by simp)
  · rename_i iset0 hparse
    split at h
    · split at h
      · rename_i hcond
        split at h
        · exact absurd h (by simp)
        · rename_i p1 hsave
          rcases h with ⟨⟩
          refine saveLocalizedImages_checks hsave ?_
          intro e he
          simp only [emit_trace, List.mem_append, List.mem_singleton] at he
          rcases he with he | he
          · exact hc e he
          · rcases he with ⟨⟩
            have hf : (!cfg.forceRefreshImages) = true := by
              simp only [Bool.and_eq_true] at hcond
              exact hcond.1.1
            simp [checkConsistent, hf]
      · split at h
        · exact absurd h (by simp)
        · rename_i p1 hread
          split at h
          · exact absurd h (by simp)
          · rename_i p2 hsave
            rcases h with ⟨⟩
            have hro := readPrimaryImage_ok hread
            refine saveImage_checks hsave ?_
            intro e he
            rw [hro.2.2.1] at he
            simp only [List.mem_append, List.mem_singleton] at he
            rcases he with he | he
            · exact hc e he
            · rcases he with ⟨⟩; rfl
    · split at h
      · exact absurd h (by simp)
      · rename_i p1 hread
        split at h
        · exact absurd h (by simp)
        · rename_i p2 hsave
          rcases h with ⟨⟩
          have hro := readPrimaryImage_ok hread
          refine saveImage_checks hsave ?_
          intro e he
          rw [hro.2.2.1] at he
          simp only [List.mem_append, List.mem_singleton] at he
          rcases he with he | he
          · exact hc e he
          · rcases he with ⟨⟩; rfl

@[simp] lemma plan_localizedUrls (ext : ExtDeps) (options : Cfg) (iset : ImageSet)
    (bid out pfx : String) :
    (makeImagePersistencePlanWithoutBuffer ext options iset bid out pfx).localizedUrls =
      iset.localizedUrls := rfl

@[simp] lemma planCH_localizedUrls (ext : ExtDeps) (options : Cfg) (iset : ImageSet)
    (bid out pfx : String) :
    (makeImagePersistencePlan ext options iset bid out pfx).localizedUrls =
      iset.localizedUrls := rfl

/-- With force-refresh on, every localized entry is written (never
skipped), and fetches only accumulate. -/
lemma saveLocalizedImages_force {ext : ExtDeps} {cfg : Cfg}
    (hf : cfg.forceRefreshImages = true) :
    ∀ {locs : List LocalizedUrl} {iset iset' : ImageSet} {st st' : St},
      saveLocalizedImages ext cfg locs iset st = .ok (iset', st') →
      countWrites st'.trace = countWrites st.trace + locs.length ∧
      countSkips st'.trace = countSkips st.trace ∧
      countFetches st.trace ≤ countFetches st'.trace := by
  intro locs
  induction locs with
  | nil =>
    intro iset iset' st st' h
    simp only [saveLocalizedImages] at h
    rcases h with ⟨⟩
    exact ⟨rfl, rfl, le_refl _⟩
  | cons loc rest ih =>
    intro iset iset' st st' h
    simp only [saveLocalizedImages] at h
    split at h
    · rename_i hcond
      rw [hf] at hcond
      simp at hcond
    · split at h
      · split at h
        · exact absurd h (by simp)
        · have h2 := ih h
          simp only [writeAsset_trace, emit_trace, countWrites_append, countSkips_append,
            countFetches_append, countWrites_check, countWrites_fetch, countWrites_write,
            countSkips_check_false, countSkips_fetch, countSkips_write,
            countFetches_check, countFetches_fetch, countFetches_write] at h2
          have hlen : (loc :: rest).length = rest.length + 1 := rfl
          refine ⟨?_, ?_, ?_⟩ <;> omega
      · split at h
        · split at h
          · exact absurd h (by simp)
          · rename_i iset2 st2 hread
            have hro := readPrimaryImage_ok hread
            have h2 := ih h
            rw [writeAsset_trace, hro.2.2.1] at h2
            simp only [emit_trace, countWrites_append, countSkips_append,
              countFetches_append, countWrites_check, countWrites_fetch, countWrites_write,
              countSkips_check_false, countSkips_fetch, countSkips_write,
              countFetches_check, countFetches_fetch, countFetches_write] at h2
            have hlen : (loc :: rest).length = rest.length + 1 := rfl
            refine ⟨?_, ?_, ?_⟩ <;> omega
        · have h2 := ih h
          simp only [writeAsset_trace, emit_trace, countWrites_append, countSkips_append,
            countFetches_append, countWrites_check, countWrites_fetch, countWrites_write,
            countSkips_check_false, countSkips_fetch, countSkips_write,
            countFetches_check, countFetches_fetch, countFetches_write] at h2
          have hlen : (loc :: rest).length = rest.length + 1 := rfl
          refine ⟨?_, ?_, ?_⟩ <;> omega

/-- With force-refresh on, `saveImage` writes the primary and every
localized entry, and never skips. -/
lemma saveImage_force {ext : ExtDeps} {cfg : Cfg} {iset iset' : ImageSet} {st st' : St}
    (hf : cfg.forceRefreshImages = true)
    (h : saveImage ext cfg iset st = .ok (iset', st')) :
    countWrites st'.trace = countWrites st.trace + 1 + iset.localizedUrls.length ∧
    countSkips st'.trace = countSkips st.trace ∧
    countFetches st.trace ≤ countFetches st'.trace := by
  simp only [saveImage] at h
  split at h
  · rename_i hcond
    rw [hf] at hcond
    simp at hcond
  · have h2 := saveLocalizedImages_force hf h
    simp only [writeAsset_trace, emit_trace, countWrites_append, countSkips_append,
      countFetches_append, countWrites_check, countWrites_write,
      countSkips_check_false, countSkips_write,
      countFetches_check, countFetches_write] at h2
    refine ⟨by omega, by omega, by omega⟩

/-- With force-refresh on, processing a block fetches at least once and
writes the primary asset plus one write per localized entry, with no skip
decision. -/
lemma processImageBlock_force {ext : ExtDeps} {cfg : Cfg} {mcfg : ModuleCfg}
    {b : Block} {st st' : St} (hf : cfg.forceRefreshImages = true)
    (h : processImageBlock ext cfg mcfg b st = .ok st') :
    countWrites st'.trace = countWrites st.trace + 1 + numLocalizedUrls mcfg b ∧
    countSkips st'.trace = countSkips st.trace ∧
    countFetches st.trace + 1 ≤ countFetches st'.trace := by
  simp only [processImageBlock] at h
  split at h
  · exact absurd h (by simp)
  · rename_i iset0 hparse
    have hnum : numLocalizedUrls mcfg b = iset0.localizedUrls.length := by
      simp [numLocalizedUrls, hparse]
    split at h
    · split at h
      · rename_i hcond
        rw [hf] at hcond
        simp at hcond
      · split at h
        · exact absurd h (by simp)
        · rename_i p1 hread
          split at h
          · exact absurd h (by simp)
          · rename_i p2 hsave
            rcases h with ⟨⟩
            have hro := readPrimaryImage_ok hread
            have h2 := saveImage_force hf hsave
            rw [hro.2.2.1] at h2
            rw [hro.2.2.2.2.2.1, plan_localizedUrls] at h2
            simp only [countWrites_append, countSkips_append, countFetches_append,
              countWrites_fetch, countSkips_fetch, countFetches_fetch] at h2
            rw [hnum]
            refine ⟨by omega, by omega, by omega⟩
    · split at h
      · exact absurd h (by simp)
      · rename_i p1 hread
        split at h
        · exact absurd h (by simp)
        · rename_i p2 hsave
          rcases h with ⟨⟩
          have hro := readPrimaryImage_ok hread
          have h2 := saveImage_force hf hsave
          rw [hro.2.2.1] at h2
          rw [planCH_localizedUrls, hro.2.2.2.2.2.1] at h2
          simp only [countWrites_append, countSkips_append, countFetches_append,
            countWrites_fetch, countSkips_fetch, countFetches_fetch] at h2
          rw [hnum]
          refine ⟨by omega, by omega, by omega⟩

/-- C2: the CacheGate decision rule — every existence-check decision in a
block's processing returns skip exactly when `forceRefreshImages` is false
and a file existed at that path; and with `forceRefreshImages = true` the
pipeline never skips: the block triggers at least one fetch and writes the
primary asset plus every localized asset even when the targets exist. -/
theorem c2_cache_gate (ext : ExtDeps) (cfg : Cfg) (mcfg : ModuleCfg) (b : Block)
    (fs0 reg0 : List String) (st' : St)
    (h : processImageBlock ext cfg mcfg b ⟨fs0, reg0, []⟩ = .ok st') :
    (∀ e ∈ st'.trace, checkConsistent cfg.forceRefreshImages e = true) ∧
    (cfg.forceRefreshImages = true →
      countSkips st'.trace = 0 ∧ 1 ≤ countFetches st'.trace ∧
      countWrites st'.trace = 1 + numLocalizedUrls mcfg b) := by
  constructor
  · exact processImageBlock_checks h (by intro e he; simp at he)
  · intro hf
    have h2 := processImageBlock_force hf h
    have hz : countWrites (St.trace ⟨fs0, reg0, []⟩) = 0 ∧
        countSkips (St.trace ⟨fs0, reg0, []⟩) = 0 ∧
        countFetches (St.trace ⟨fs0, reg0, []⟩) = 0 := ⟨rfl, rfl, rfl⟩
    refine ⟨?_, ?_, ?_⟩ <;> omega

/-- C2 witness data: the final state of a forced one-block run over an
output tree where the target already exists. -/
def c2st : St :=
  match processImageBlock sampleExt ⟨"default", true⟩ c3mcfg c3blk
    ⟨["img/b1.png"], [], []⟩ with
  | .ok st => st
  | .error _ => ⟨[], [], []⟩

/-- C2 witness: the theorem applied to the concrete forced run. -/
theorem c2_cache_gate_witness :
    (∀ e ∈ c2st.trace, checkConsistent true e = true) ∧
    countSkips c2st.trace = 0 ∧ 1 ≤ countFetches c2st.trace ∧
    countWrites c2st.trace = 1 + numLocalizedUrls c3mcfg c3blk :=
  ⟨(c2_cache_gate sampleExt ⟨"default", true⟩ c3mcfg c3blk ["img/b1.png"] [] c2st (by rfl)).1,
   (c2_cache_gate sampleExt ⟨"default", true⟩ c3mcfg c3blk ["img/b1.png"] [] c2st (by rfl)).2 rfl⟩

/-! ## C1: idempotence of the second run -/

lemma append_slash_ne_empty (s : String) : s ++ "/" ≠ "" := by
  intro hc
  have hlen := congrArg String.length hc
  rw [String.length_append] at hlen
  have h1 : String.length "/" = 1 := rfl
  have h2 : String.length "" = 0 := rfl
  omega

lemma ite_ne_empty_aux (c : Prop) [Decidable c] (s t : String) (hs : s ≠ "")
    (ht : t ≠ "") : (if c then s else t) ≠ "" := by
  split
  · exact hs
  · exact ht

lemma ite_keep_ne_empty (r : String) : (if r = "" then "." else r) ≠ "" := by
  split
  · decide
  · assumption

lemma posixNormalize_ne_empty (p : String) : posixNormalize p ≠ "" := by
  unfold posixNormalize
  split
  · decide
  · exact ite_ne_empty_aux _ _ _ (append_slash_ne_empty _) (ite_keep_ne_empty _)

lemma posixJoin_ne_empty (a b : String) : posixJoin a b ≠ "" := by
  unfold posixJoin
  exact ite_ne_empty_aux _ _ _ (by decide) (posixNormalize_ne_empty _)

@[simp] lemma plan_primaryFileOutputPath (ext : ExtDeps) (options : Cfg) (iset : ImageSet)
    (bid out pfx : String) :
    (makeImagePersistencePlanWithoutBuffer ext options iset bid out pfx).primaryFileOutputPath =
      some (posixJoin
        (if out.length > 0 then out
          else ((iset.pageInfo.map (·.directoryContainingMarkdown)).getD ""))
        (ext.decodeURI
          ((makeImagePersistencePlanWithoutBuffer ext options iset bid out pfx).outputFileName.getD ""))) := rfl

/-- When every localized target already exists and refresh is not forced,
the localized loop only records skip decisions, touching neither the
filesystem nor the trace beyond them. -/
lemma saveLocalizedImages_all_skip {ext : ExtDeps} {cfg : Cfg}
    (hf : cfg.forceRefreshImages = false) :
    ∀ (locs : List LocalizedUrl) (iset : ImageSet) (st : St),
      (∀ loc ∈ locs, st.fs.contains (localizedPathOf iset loc.iso632Code) = true) →
      saveLocalizedImages ext cfg locs iset st =
        .ok (iset, ⟨st.fs,
          locs.foldl (fun r loc => imageWasSeen (localizedPathOf iset loc.iso632Code) r) st.registry,
          st.trace ++ locs.map fun loc =>
            .check (localizedPathOf iset loc.iso632Code) true true⟩) := by
  intro locs
  induction locs with
  | nil =>
    intro iset st _
    simp only [saveLocalizedImages, List.foldl_nil, List.map_nil, List.append_nil]
  | cons loc rest ih =>
    intro iset st hall
    have hloc := hall loc (List.mem_cons_self _ _)
    have hcond : (!cfg.forceRefreshImages &&
        st.fs.contains (localizedPathOf iset loc.iso632Code)) = true := by
      rw [hf, hloc]
      rfl
    simp only [saveLocalizedImages]
    rw [if_pos hcond]
    rw [ih iset _ (by intro l hl; exact hall l (List.mem_cons_of_mem _ hl))]
    simp only [emit_fs, emit_registry, emit_trace, List.foldl_cons, List.map_cons]
    rw [List.append_assoc]
    rfl

/-- All-skip form of `processImageBlock` for default/legacy naming: when
refresh is not forced and every planned path already exists, the block's
processing performs no fetch and no write — it only records one skip
decision per planned path and removes each from the registry. -/
lemma processImageBlock_all_skip {ext : ExtDeps} {cfg : Cfg} {mcfg : ModuleCfg}
    {b : Block} {st : St} {iset0 : ImageSet}
    (hm : cfg.imageFileNameFormat ≠ "content-hash")
    (hf : cfg.forceRefreshImages = false)
    (hparse : parseImageBlock mcfg.locales b.image = .ok iset0)
    (hpres : ∀ p ∈ plannedPaths ext cfg mcfg b, st.fs.contains p = true) :
    processImageBlock ext cfg mcfg b st =
      .ok ⟨st.fs,
        (plannedPaths ext cfg mcfg b).foldl (fun r p => imageWasSeen p r) st.registry,
        st.trace ++ (plannedPaths ext cfg mcfg b).map fun p => .check p true true⟩ := by
  have hpp : plannedPaths ext cfg mcfg b =
      (makeImagePersistencePlanWithoutBuffer ext cfg { iset0 with pageInfo := some b.pageInfo }
        b.id mcfg.imageOutputPath mcfg.imagePrefix).primaryFileOutputPath.getD "" ::
      (makeImagePersistencePlanWithoutBuffer ext cfg { iset0 with pageInfo := some b.pageInfo }
        b.id mcfg.imageOutputPath mcfg.imagePrefix).localizedUrls.map
        (fun loc => localizedPathOf
          (makeImagePersistencePlanWithoutBuffer ext cfg { iset0 with pageInfo := some b.pageInfo }
            b.id mcfg.imageOutputPath mcfg.imagePrefix) loc.iso632Code) := by
    simp only [plannedPaths, hparse]
  have hprim := hpres _ (by rw [hpp]; exact List.mem_cons_self _ _)
  have hne : ((makeImagePersistencePlanWithoutBuffer ext cfg
      { iset0 with pageInfo := some b.pageInfo } b.id mcfg.imageOutputPath
      mcfg.imagePrefix).primaryFileOutputPath.getD "" != "") = true := by
    rw [plan_primaryFileOutputPath, Option.getD_some]
    exact bne_iff_ne.2 (posixJoin_ne_empty _ _)
  have hcond : (!cfg.forceRefreshImages &&
      ((makeImagePersistencePlanWithoutBuffer ext cfg { iset0 with pageInfo := some b.pageInfo }
        b.id mcfg.imageOutputPath mcfg.imagePrefix).primaryFileOutputPath.getD "" != "") &&
      st.fs.contains ((makeImagePersistencePlanWithoutBuffer ext cfg
        { iset0 with pageInfo := some b.pageInfo }
        b.id mcfg.imageOutputPath mcfg.imagePrefix).primaryFileOutputPath.getD "")) = true := by
    rw [hf, hne, hprim]
    rfl
  simp only [processImageBlock, hparse]
  rw [if_pos hm, if_pos hcond]
  rw [saveLocalizedImages_all_skip hf _ _ _ (by
    intro loc hl
    refine hpres _ ?_
    rw [hpp]
    exact List.mem_cons_of_mem _ (List.mem_map_of_mem _ hl))]
  simp only [emit_fs, emit_registry, emit_trace, hpp, List.map_cons, List.map_map,
    List.foldl_cons, List.foldl_map]
  rw [List.append_assoc]
  rfl

/-- After a successful localized loop, every localized target path
exists. -/
lemma saveLocalizedImages_paths_present {ext : ExtDeps} {cfg : Cfg} :
    ∀ {locs : List LocalizedUrl} {iset iset' : ImageSet} {st st' : St},
      saveLocalizedImages ext cfg locs iset st = .ok (iset', st') →
      ∀ loc ∈ locs, localizedPathOf iset loc.iso632Code ∈ st'.fs := by
  intro locs
  induction locs with
  | nil =>
    intro iset iset' st st' _ loc hl
    exact absurd hl (by simp)
  | cons loc rest ih =>
    intro iset iset' st st' h l hl
    simp only [saveLocalizedImages] at h
    rcases List.mem_cons.1 hl with hl | hl
    · subst hl
      split at h
      · rename_i hcond
        have hmem : localizedPathOf iset l.iso632Code ∈ st.fs := by
          simp only [Bool.and_eq_true] at hcond
          exact List.mem_of_elem_eq_true hcond.2
        exact (saveLocalizedImages_mono h).1 (by simpa using hmem)
      · split at h
        · split at h
          · exact absurd h (by simp)
          · exact (saveLocalizedImages_mono h).1 (mem_writeAsset_fs _ _ _)
        · split at h
          · split at h
            · exact absurd h (by simp)
            · exact (saveLocalizedImages_mono h).1 (mem_writeAsset_fs _ _ _)
          · exact (saveLocalizedImages_mono h).1 (mem_writeAsset_fs _ _ _)
    · split at h
      · exact ih h l hl
      · split at h
        · split at h
          · exact absurd h (by simp)
          · exact ih h l hl
        · split at h
          · split at h
            · exact absurd h (by simp)
            · rename_i iset2 st2 hread
              have hro := readPrimaryImage_ok hread
              have := ih h l hl
              rwa [localizedPathOf_congr hro.2.2.2.1 hro.2.2.2.2.1] at this
          · exact ih h l hl

/-- After a successful `saveImage`, the primary target path and every
localized target path exist. -/
lemma saveImage_paths_present {ext : ExtDeps} {cfg : Cfg} {iset iset' : ImageSet}
    {st st' : St} (h : saveImage ext cfg iset st = .ok (iset', st')) :
    iset.primaryFileOutputPath.getD "" ∈ st'.fs ∧
    ∀ loc ∈ iset.localizedUrls, localizedPathOf iset loc.iso632Code ∈ st'.fs := by
  simp only [saveImage] at h
  split at h
  · rename_i hcond
    have hmem : iset.primaryFileOutputPath.getD "" ∈ st.fs := by
      simp only [Bool.and_eq_true] at hcond
      exact List.mem_of_elem_eq_true hcond.2
    exact ⟨(saveLocalizedImages_mono h).1 (by simpa using hmem),
      saveLocalizedImages_paths_present h⟩
  · exact ⟨(saveLocalizedImages_mono h).1 (mem_writeAsset_fs _ _ _),
      saveLocalizedImages_paths_present h⟩

/-- After a successful `processImageBlock` in default/legacy mode, the
block parses and every planned path exists. -/
lemma processImageBlock_paths_present {ext : ExtDeps} {cfg : Cfg} {mcfg : ModuleCfg}
    {b : Block} {st st' : St}
    (hm : cfg.imageFileNameFormat ≠ "content-hash")
    (h : processImageBlock ext cfg mcfg b st = .ok st') :
    (∃ is, parseImageBlock mcfg.locales b.image = .ok is) ∧
    ∀ p ∈ plannedPaths ext cfg mcfg b, p ∈ st'.fs := by
  simp only [processImageBlock] at h
  split at h
  · exact absurd h (by simp)
  · rename_i iset0 hparse
    refine ⟨⟨iset0, hparse⟩, ?_⟩
    rw [if_pos hm] at h
    intro p hp
    simp only [plannedPaths, hparse, List.mem_cons, List.mem_map] at hp
    split at h
    · rename_i hcond
      split at h
      · exact absurd h (by simp)
      · rename_i st3 hsave
        rcases h with ⟨⟩
        rcases hp with hp | ⟨loc, hl, hp⟩
        · subst hp
          have hmem : (makeImagePersistencePlanWithoutBuffer ext cfg
              { iset0 with pageInfo := some b.pageInfo } b.id mcfg.imageOutputPath
              mcfg.imagePrefix).primaryFileOutputPath.getD "" ∈ st.fs := by
            simp only [Bool.and_eq_true] at hcond
            exact List.mem_of_elem_eq_true hcond.2
          exact (saveLocalizedImages_mono hsave).1 (by simpa using hmem)
        · subst hp
          exact saveLocalizedImages_paths_present hsave loc hl
    · split at h
      · exact absurd h (by simp)
      · rename_i p1 hread
        split at h
        · exact absurd h (by simp)
        · rename_i p2 hsave
          rcases h with ⟨⟩
          have hro := readPrimaryImage_ok hread
          have hsp := saveImage_paths_present hsave
          rcases hp with hp | ⟨loc, hl, hp⟩
          · subst hp
            have := hsp.1
            rwa [hro.2.2.2.2.2.2] at this
          · subst hp
            have := hsp.2 loc (by rw [hro.2.2.2.2.2.1]; exact hl)
            rwa [localizedPathOf_congr hro.2.2.2.1 hro.2.2.2.2.1] at this

/-- After a successful run in default/legacy mode, every block of the run
parses and all its planned paths exist in the final tree. -/
lemma runBlocks_paths_present {ext : ExtDeps} {cfg : Cfg} {mcfg : ModuleCfg}
    (hm : cfg.imageFileNameFormat ≠ "content-hash") :
    ∀ {blocks : List Block} {st st' : St},
      runBlocks ext cfg mcfg blocks st = .ok st' →
      ∀ b ∈ blocks, (∃ is, parseImageBlock mcfg.locales b.image = .ok is) ∧
        ∀ p ∈ plannedPaths ext cfg mcfg b, p ∈ st'.fs := by
  intro blocks
  induction blocks with
  | nil =>
    intro st st' _ b hb
    exact absurd hb (by simp)
  | cons b0 bs ih =>
    intro st st' h b hb
    simp only [runBlocks] at h
    split at h
    · exact absurd h (by simp)
    · rename_i st1 hproc
      rcases List.mem_cons.1 hb with hb | hb
      · subst hb
        have hpp := processImageBlock_paths_present hm hproc
        exact ⟨hpp.1, fun p hp => (runBlocks_mono h).1 (hpp.2 p hp)⟩
      · exact ih h b hb

/-- A run in which refresh is not forced, naming is default/legacy, every
block parses, and every planned path already exists, only records skip
decisions: the tree is unchanged and the trace holds nothing but skips. -/
lemma runBlocks_all_skip {ext : ExtDeps} {cfg : Cfg} {mcfg : ModuleCfg}
    (hm : cfg.imageFileNameFormat ≠ "content-hash")
    (hf : cfg.forceRefreshImages = false) :
    ∀ (blocks : List Block) (st : St),
      (∀ b ∈ blocks, (∃ is, parseImageBlock mcfg.locales b.image = .ok is) ∧
        ∀ p ∈ plannedPaths ext cfg mcfg b, st.fs.contains p = true) →
      ∃ st', runBlocks ext cfg mcfg blocks st = .ok st' ∧ st'.fs = st.fs ∧
        ∃ tr', st'.trace = st.trace ++ tr' ∧ tr'.all isSkippedCheck = true := by
  intro blocks
  induction blocks with
  | nil =>
    intro st _
    exact ⟨st, rfl, rfl, [], by simp, rfl⟩
  | cons b bs ih =>
    intro st hall
    rcases hall b (List.mem_cons_self _ _) with ⟨⟨is0, hparse⟩, hpres⟩
    have hskip := processImageBlock_all_skip hm hf hparse hpres
    rcases ih ⟨st.fs, (plannedPaths ext cfg mcfg b).foldl (fun r p => imageWasSeen p r) st.registry,
        st.trace ++ (plannedPaths ext cfg mcfg b).map fun p => .check p true true⟩
        (by intro b2 hb2; exact hall b2 (List.mem_cons_of_mem _ hb2)) with
      ⟨st2, hrun, hfs, tr', htr, hall'⟩
  -- assemble
    refine ⟨st2, ?_, by simpa using hfs, ?_⟩
    · simp only [runBlocks, hskip]
      exact hrun
    · refine ⟨(plannedPaths ext cfg mcfg b).map (fun p => .check p true true) ++ tr', ?_, ?_⟩
      · rw [htr]
        simp [List.append_assoc]
      · simp only [List.all_append, Bool.and_eq_true]
        refine ⟨?_, hall'⟩
        simp [List.all_eq_true, isSkippedCheck]

/-- A trace of nothing but skip decisions contains no fetch and no
write. -/
lemma counts_zero_of_all_skipped {tr : List Event}
    (h : tr.all isSkippedCheck = true) :
    countFetches tr = 0 ∧ countWrites tr = 0 := by
  rw [List.all_eq_true] at h
  constructor
  · refine List.countP_eq_zero.2 fun e he => ?_
    have := h e he
    cases e <;> simp_all [isSkippedCheck]
  · refine List.countP_eq_zero.2 fun e he => ?_
    have := h e he
    cases e <;> simp_all [isSkippedCheck]

/-- C1 amended: idempotence of the pipeline for default and legacy naming
modes, provided `forceRefreshImages` is false — after a completed run,
running the pipeline again with unchanged source data against the
unmodified output tree performs zero file writes and zero network fetches:
the existence check returns skip for the primary path and for every
localized path of every block, and the tree is unchanged. -/
theorem c1_second_run_idempotent (ext : ExtDeps) (cfg : Cfg) (mcfg : ModuleCfg)
    (blocks : List Block) (fs0 reg0 reg1 : List String) (st1 : St)
    (hm : cfg.imageFileNameFormat ≠ "content-hash")
    (hf : cfg.forceRefreshImages = false)
    (h1 : runBlocks ext cfg mcfg blocks ⟨fs0, reg0, []⟩ = .ok st1) :
    ∃ st2, runBlocks ext cfg mcfg blocks ⟨st1.fs, reg1, []⟩ = .ok st2 ∧
      st2.fs = st1.fs ∧ countFetches st2.trace = 0 ∧ countWrites st2.trace = 0 ∧
      st2.trace.all isSkippedCheck = true := by
  have hpres := runBlocks_paths_present hm h1
  rcases runBlocks_all_skip hm hf blocks ⟨st1.fs, reg1, []⟩ (by
      intro b hb
      rcases hpres b hb with ⟨hp, hps⟩
      exact ⟨hp, fun p hp2 => List.elem_eq_true_of_mem (hps p hp2)⟩) with
    ⟨st2, hrun, hfs, tr', htr, hsk⟩
  have htr' : st2.trace = tr' := by simpa using htr
  have hz := counts_zero_of_all_skipped (htr' ▸ hsk)
  exact ⟨st2, hrun, by simpa using hfs, hz.1, hz.2, htr' ▸ hsk⟩

/-- C1 witness data: the final state of the concrete first run. -/
def c1st1 : St :=
  match runBlocks sampleExt ⟨"default", false⟩ c3mcfg [c3blk] ⟨[], [], []⟩ with
  | .ok st => st
  | .error _ => ⟨[], [], []⟩

/-- C1 witness: the amended theorem applied to the concrete pair of runs. -/
theorem c1_second_run_idempotent_witness :
    ∃ st2, runBlocks sampleExt ⟨"default", false⟩ c3mcfg [c3blk] ⟨c1st1.fs, [], []⟩ = .ok st2 ∧
      st2.fs = c1st1.fs ∧ countFetches st2.trace = 0 ∧ countWrites st2.trace = 0 ∧
      st2.trace.all isSkippedCheck = true :=
  c1_second_run_idempotent sampleExt ⟨"default", false⟩ c3mcfg [c3blk] [] [] [] c1st1
    (by decide) rfl (by rfl)

/-- C1 counterexample data: the final state of a first run with the same
configuration as the second (forceRefreshImages true, default naming). -/
def c1cexSt1 : St :=
  match runBlocks sampleExt ⟨"default", true⟩ c3mcfg [c3blk] ⟨[], [], []⟩ with
  | .ok st => st
  | .error _ => ⟨[], [], []⟩

/-- C1 counterexample: with unchanged source data, unchanged configuration
(`forceRefreshImages = true`, default naming) and the unmodified output
tree of a completed first run, the second run still performs one write and
one fetch and skips nothing — so the claim as stated, which quantifies
over every unchanged configuration, fails; it requires
`forceRefreshImages = false`. -/
theorem c1_counterexample :
    exceptOk (runBlocks sampleExt ⟨"default", true⟩ c3mcfg [c3blk] ⟨[], [], []⟩) = true ∧
    countWrites (traceOf (runBlocks sampleExt ⟨"default", true⟩ c3mcfg [c3blk]
      ⟨c1cexSt1.fs, [], []⟩)) = 1 ∧
    countFetches (traceOf (runBlocks sampleExt ⟨"default", true⟩ c3mcfg [c3blk]
      ⟨c1cexSt1.fs, [], []⟩)) = 1 ∧
    countSkips (traceOf (runBlocks sampleExt ⟨"default", true⟩ c3mcfg [c3blk]
      ⟨c1cexSt1.fs, [], []⟩)) = 0 := by
  refine ⟨rfl, rfl, rfl, rfl⟩

/-! ## C6: fetch behaviour -/

/-- The primary buffer recorded by a fetch-and-buffer step. -/
def primaryBufferOf : Except Unit (ImageSet × St) → Option (List Nat)
  | .ok (is, _) => is.primaryBuffer
  | .error _ => none

/-- The trace of a step returning an image set and a state. -/
def traceOfPair : Except Unit (ImageSet × St) → List Event
  | .ok (_, st) => st.trace
  | .error _ => []

/-- C6 counterexample data: every fetch resolves with HTTP 404
(`ok = false`) and body `[9, 9]`. -/
def c6ext : ExtDeps :=
  { fetchO := fun _ => .resolve false 404 [9, 9]
    sniff := fun _ => some "png"
    sha256hex := fun _ => ""
    decodeURI := fun s => s
    contentHashName := fun _ => ""
    rmOk := fun _ => true }

/-- C6 counterexample data: a descriptor ready for fetching. -/
def c6iset : ImageSet :=
  { primaryUrl := "https://e.com/a.png"
    caption := ""
    localizedUrls := []
    pageInfo := some ⟨none, "d", "r"⟩
    outputFileName := some "a.png" }

/-- C6 counterexample: the fetch of the primary URL resolves with a
non-success HTTP response (`ok = false`, status 404), and its body is
nevertheless stored as the asset's bytes — `readPrimaryImage` never
inspects the response status. -/
theorem c6_counterexample :
    c6ext.fetchO "https://e.com/a.png" = .resolve false 404 [9, 9] ∧
    primaryBufferOf (readPrimaryImage c6ext c6iset ⟨[], [], []⟩) = some [9, 9] :=
  ⟨rfl, rfl⟩

lemma string_length_pos_of_ne_empty {s : String} (h : s ≠ "") : s.length > 0 := by
  cases s with
  | mk data =>
    cases data with
    | nil => exact absurd rfl h
    | cons c cs => simp [String.length]

/-- C6 amended: fetching an image (primary or localized override) fails —
the rejection propagating and aborting the block — exactly on a
transport-level failure or timeout (a rejected promise); on any resolved
response, regardless of HTTP status, the body is used as the asset's
bytes: buffered and type-sniffed for the primary, written to the localized
path for an override. The HTTP status is never inspected. -/
theorem c6_fetch_behaviour (ext : ExtDeps) (iset : ImageSet) (st : St) :
    (match ext.fetchO iset.primaryUrl with
     | .reject => readPrimaryImage ext iset st = .error ()
     | .resolve _ _ body =>
         readPrimaryImage ext iset st =
           .ok ({ iset with primaryBuffer := some body, fileType := ext.sniff body },
                emit st (.fetch iset.primaryUrl))) ∧
    (∀ (cfg : Cfg) (loc : LocalizedUrl),
      loc.url ≠ "" →
      st.fs.contains (localizedPathOf iset loc.iso632Code) = false →
      (match ext.fetchO loc.url with
       | .reject => saveLocalizedImages ext cfg [loc] iset st = .error ()
       | .resolve _ _ body =>
           Event.write (localizedPathOf iset loc.iso632Code) body ∈
             traceOfPair (saveLocalizedImages ext cfg [loc] iset st))) := by
  constructor
  · rcases hfo : ext.fetchO iset.primaryUrl with _ | ⟨ok, status, body⟩ <;>
      simp only [readPrimaryImage, hfo]
  · intro cfg loc hurl hcontains
    have hcond : (!cfg.forceRefreshImages &&
        st.fs.contains (localizedPathOf iset loc.iso632Code)) = false := by
      rw [hcontains, Bool.and_false]
    rcases hfo : ext.fetchO loc.url with _ | ⟨ok, status, body⟩ <;>
      simp only [saveLocalizedImages, hfo] <;>
      rw [if_neg (by rw [hcond]; simp), if_pos (string_length_pos_of_ne_empty hurl)] <;>
      simp only [hfo, saveLocalizedImages, traceOfPair, writeAsset_trace]
    simp

/-- C6 witness: the amended theorem applied at a concrete resolved 404
override fetch — the body is written verbatim to the localized path. -/
theorem c6_fetch_behaviour_witness :
    Event.write (localizedPathOf c6iset "fr") [9, 9] ∈
      traceOfPair (saveLocalizedImages c6ext ⟨"default", false⟩
        [⟨"fr", "https://e.com/fr.png"⟩] c6iset ⟨[], [], []⟩) :=
  (c6_fetch_behaviour c6ext c6iset ⟨[], [], []⟩).2 ⟨"default", false⟩
    ⟨"fr", "https://e.com/fr.png"⟩ (by decide) (by rfl)

/-! ## C7: the extension fallback -/

/-- C7 failing-input data: a primary URL with no file extension. -/
def c7iset : ImageSet :=
  { primaryUrl := "https://example.com/image"
    caption := ""
    localizedUrls := []
    pageInfo := some ⟨some "page", "docs", "rel"⟩ }

/-- C7: evaluating the default-mode naming at the failing input — a
primary URL lacking a file extension. `split(".").pop()` returns the whole
tail after the last dot of the URL, so the "extension" becomes
`com/image` (containing a path separator) instead of the claimed `png`
fallback, and `outputFileName` is `page.abc123.com/image`, which does not
end in the default extension. -/
theorem c7_extension_fallback_bug :
    imageFileExtensionOf "https://example.com/image" = "com/image" ∧
    (makeImagePersistencePlanWithoutBuffer sampleExt ⟨"default", false⟩ c7iset "abc123"
      "img" "").outputFileName = some "page.abc123.com/image" :=
  ⟨rfl, rfl⟩

/-! ## C8: legacy naming -/

/-- A string is UUID-shaped: five dash-separated groups of hex digits with
lengths 8-4-4-4-12 (the spec's regex, stated independently of the
scanner). -/
def uuidShaped (s : String) : Bool :=
  (jsSplit '-' s).length == 5 &&
    ((jsSplit '-' s).map String.length) == [8, 4, 4, 4, 12] &&
    ((jsSplit '-' s).foldl (fun acc g => acc ++ g.data) []).all isHexDigitCI

lemma takeHexN_spec : ∀ {n : Nat} {cs g r : List Char},
    takeHexN n cs = some (g, r) →
    g.length = n ∧ (∀ c ∈ g, isHexDigitCI c = true) ∧ cs = g ++ r := by
  intro n
  induction n with
  | zero =>
    intro cs g r h
    simp only [takeHexN] at h
    rcases h with ⟨⟩
    exact ⟨rfl, by simp, rfl⟩
  | succ n ih =>
    intro cs g r h
    match cs with
    | [] => exact absurd h (by simp [takeHexN])
    | c :: cs' =>
      simp only [takeHexN] at h
      split at h
      · rename_i hhex
        rcases hrec : takeHexN n cs' with _ | ⟨g', r'⟩ <;> rw [hrec] at h
        · exact absurd h (by simp)
        · rcases (show some (c :: g', r') = some (g, r) from h) with ⟨⟩
          rcases ih hrec with ⟨hl, hhexall, hsplit⟩
          refine ⟨by simp [hl], ?_, by simp [hsplit]⟩
          intro x hx
          rcases List.mem_cons.1 hx with hx | hx
          · subst hx; exact hhex
          · exact hhexall x hx
      · exact absurd h (by simp)

lemma hex_ne_dash {c : Char} (h : isHexDigitCI c = true) : c ≠ '-' := by
  intro hc
  subst hc
  exact absurd h (by decide)

lemma splitCharAux_no_sep (sep : Char) :
    ∀ (xs acc : List Char), (∀ c ∈ xs, c ≠ sep) →
      splitCharAux sep xs acc = [acc.reverse ++ xs] := by
  intro xs
  induction xs with
  | nil =>
    intro acc _
    simp only [splitCharAux, List.append_nil]
  | cons c rest ih =>
    intro acc hc
    simp only [splitCharAux]
    rw [if_neg (hc c (List.mem_cons_self _ _))]
    refine Eq.trans (ih (c :: acc) fun x hx => hc x (List.mem_cons_of_mem _ hx)) ?_
    simp

lemma splitCharAux_append_sep (sep : Char) :
    ∀ (xs rest acc : List Char), (∀ c ∈ xs, c ≠ sep) →
      splitCharAux sep (xs ++ sep :: rest) acc =
        (acc.reverse ++ xs) :: splitCharAux sep rest [] := by
  intro xs
  induction xs with
  | nil =>
    intro rest acc _
    simp [splitCharAux]
  | cons c xs' ih =>
    intro rest acc hc
    simp only [List.cons_append, splitCharAux]
    rw [if_neg (hc c (List.mem_cons_self _ _))]
    refine Eq.trans (ih rest (c :: acc) fun x hx => hc x (List.mem_cons_of_mem _ hx)) ?_
    simp

/-- Every string the UUID matcher produces is UUID-shaped. -/
lemma matchUuid_shaped {cs m r : List Char} (h : matchUuid cs = some (m, r)) :
    uuidShaped m.asString = true := by
  simp only [matchUuid] at h
  split at h
  · exact absurd h (by simp)
  rename_i g1 r1 h1
  split at h
  · exact absurd h (by simp)
  rename_i r1' hd1
  split at h
  · exact absurd h (by simp)
  rename_i g2 r2 h2
  split at h
  · exact absurd h (by simp)
  rename_i r2' hd2
  split at h
  · exact absurd h (by simp)
  rename_i g3 r3 h3
  split at h
  · exact absurd h (by simp)
  rename_i r3' hd3
  split at h
  · exact absurd h (by simp)
  rename_i g4 r4 h4
  split at h
  · exact absurd h (by simp)
  rename_i r4' hd4
  split at h
  · exact absurd h (by simp)
  rename_i g5 r5 h5
  rcases h with ⟨⟩
  rcases takeHexN_spec h1 with ⟨hl1, hh1, _⟩
  rcases takeHexN_spec h2 with ⟨hl2, hh2, _⟩
  rcases takeHexN_spec h3 with ⟨hl3, hh3, _⟩
  rcases takeHexN_spec h4 with ⟨hl4, hh4, _⟩
  rcases takeHexN_spec h5 with ⟨hl5, hh5, _⟩
  have hne1 : ∀ c ∈ g1, c ≠ '-' := fun c hc => hex_ne_dash (hh1 c hc)
  have hne2 : ∀ c ∈ g2, c ≠ '-' := fun c hc => hex_ne_dash (hh2 c hc)
  have hne3 : ∀ c ∈ g3, c ≠ '-' := fun c hc => hex_ne_dash (hh3 c hc)
  have hne4 : ∀ c ∈ g4, c ≠ '-' := fun c hc => hex_ne_dash (hh4 c hc)
  have hne5 : ∀ c ∈ g5, c ≠ '-' := fun c hc => hex_ne_dash (hh5 c hc)
  have hassoc : (g1 ++ '-' :: g2 ++ '-' :: g3 ++ '-' :: g4 ++ '-' :: g5) =
      (g1 ++ '-' :: (g2 ++ '-' :: (g3 ++ '-' :: (g4 ++ '-' :: g5)))) := by
    simp [List.append_assoc]
  have hsplit : jsSplit '-'
      (g1 ++ '-' :: g2 ++ '-' :: g3 ++ '-' :: g4 ++ '-' :: g5).asString =
      [g1.asString, g2.asString, g3.asString, g4.asString, g5.asString] := by
    rw [hassoc]
    simp only [jsSplit]
    rw [show (g1 ++ '-' :: (g2 ++ '-' :: (g3 ++ '-' :: (g4 ++ '-' :: g5)))).asString.data =
      g1 ++ '-' :: (g2 ++ '-' :: (g3 ++ '-' :: (g4 ++ '-' :: g5))) from rfl]
    rw [splitCharAux_append_sep '-' g1 _ [] hne1]
    rw [splitCharAux_append_sep '-' g2 _ [] hne2]
    rw [splitCharAux_append_sep '-' g3 _ [] hne3]
    rw [splitCharAux_append_sep '-' g4 _ [] hne4]
    rw [splitCharAux_no_sep '-' g5 [] hne5]
    simp
  unfold uuidShaped
  rw [hsplit]
  have hlen : ∀ (l : List Char), (l.asString).length = l.length := fun l => rfl
  have hdata : ∀ (l : List Char), (l.asString).data = l := fun l => rfl
  simp only [List.map_cons, List.map_nil, List.foldl_cons, List.foldl_nil,
    List.length_cons, List.length_nil, List.nil_append,
    hlen, hdata, hl1, hl2, hl3, hl4, hl5, beq_self_eq_true, Bool.true_and, Bool.and_self]
  rw [List.all_eq_true]
  intro c hc
  simp only [List.mem_append] at hc
  rcases hc with ((((hc | hc) | hc) | hc) | hc)
  exacts [hh1 c hc, hh2 c hc, hh3 c hc, hh4 c hc, hh5 c hc]

/-- Every match of the global scan is UUID-shaped. -/
lemma uuidScan_shaped : ∀ (fuel : Nat) (cs : List Char) (m : String),
    m ∈ uuidScan fuel cs → uuidShaped m = true := by
  intro fuel
  induction fuel with
  | zero => intro cs m hm; exact absurd hm (by simp [uuidScan])
  | succ f ih =>
    intro cs m hm
    match cs with
    | [] => exact absurd hm (by simp [uuidScan])
    | c :: rest =>
      simp only [uuidScan] at hm
      split at hm
      · rename_i mm rest' hmatch
        rcases List.mem_cons.1 hm with hm | hm
        · subst hm
          exact matchUuid_shaped hmatch
        · exact ih rest' m hm
      · exact ih rest m hm

/-- C8: legacy naming — `outputFileName` is `<hash>.<ext>` where the hash
is the first 8 hex characters of the SHA-256 (the external `crypto`
primitive) of the last UUID-shaped substring of the URL-before-query, or
of the whole URL-before-query when the scan finds none; the extension is
computed exactly as in default mode. Every string `findLastUuid` selects
is indeed UUID-shaped. -/
theorem c8_legacy_naming (ext : ExtDeps) (force : Bool) (iset : ImageSet)
    (blockId outPath pfx : String) :
    (makeImagePersistencePlanWithoutBuffer ext ⟨"legacy", force⟩ iset blockId
        outPath pfx).outputFileName =
      some (jsTake 8 (ext.sha256hex
          ((findLastUuid (urlBeforeQuery iset.primaryUrl)).getD
            (urlBeforeQuery iset.primaryUrl)))
        ++ "." ++ imageFileExtensionOf iset.primaryUrl) ∧
    (∀ m, findLastUuid (urlBeforeQuery iset.primaryUrl) = some m →
      uuidShaped m = true) := by
  constructor
  · rfl
  · intro m hm
    have hm' : (uuidScan (urlBeforeQuery iset.primaryUrl).data.length
        (urlBeforeQuery iset.primaryUrl).data).getLast? = some m := hm
    rcases List.mem_getLast?_eq_getLast (Option.mem_def.2 hm') with ⟨hne, heq⟩
    subst heq
    exact uuidScan_shaped _ _ _ (List.getLast_mem hne)

/-- C8 witness data: a descriptor whose primary URL embeds a concrete
notion-style UUID. -/
def c8iset : ImageSet :=
  { primaryUrl := "https://s3.aws.com/12345678-abcd-4abc-8def-123456789abc/foo.png?X=1"
    caption := ""
    localizedUrls := [] }

/-- C8 witness: the theorem applied to the concrete URL — the scan finds
the embedded UUID and it is UUID-shaped. -/
theorem c8_legacy_naming_witness :
    uuidShaped "12345678-abcd-4abc-8def-123456789abc" = true :=
  (c8_legacy_naming sampleExt false c8iset "b" "" "").2
    "12345678-abcd-4abc-8def-123456789abc" (by rfl)

/-! ## C9 and C10: the caption line rule -/

lemma string_empty_append (s : String) : "" ++ s = s := by
  cases s with
  | mk data => rfl

lemma string_append_empty (s : String) : s ++ "" = s := by
  cases s with
  | mk data =>
    show String.mk (data ++ []) = String.mk data
    rw [List.append_nil]

lemma string_append_assoc (a b c : String) : a ++ b ++ c = a ++ (b ++ c) := by
  cases a with
  | mk x =>
    cases b with
    | mk y =>
      cases c with
      | mk z =>
        show String.mk (x ++ y ++ z) = String.mk (x ++ (y ++ z))
        rw [List.append_assoc]

/-- The localized-url entry a caption line yields, when the unanchored
regex matches it. -/
def overrideOfLine (l : String) : Option LocalizedUrl :=
  (execLocale l.data).map fun r => ⟨jsToLower r.1, r.2⟩

/-- The caption text accumulated from the non-matching lines, each with a
trailing space, in line order. -/
def captionAccum : List String → String
  | [] => ""
  | l :: ls =>
    if (execLocale l.data).isSome then captionAccum ls
    else l ++ " " ++ captionAccum ls

/-- The lines of a block's merged caption. -/
def captionLines (image : ImageBlockInput) : List String :=
  jsSplit '\n' (String.join image.captionParts)

/-- The `forEach` body of `parseImageBlock`, expressed as one pass: the
final descriptor appends exactly the matching lines' entries to the
localized urls and the non-matching lines (with trailing spaces) to the
caption. -/
lemma foldl_processLine (lines : List String) :
    ∀ (iset : ImageSet),
      lines.foldl processLine iset =
        { iset with
          caption := iset.caption ++ captionAccum lines
          localizedUrls := iset.localizedUrls ++ lines.filterMap overrideOfLine } := by
  induction lines with
  | nil =>
    intro iset
    simp only [List.foldl_nil, captionAccum, List.filterMap_nil, List.append_nil,
      string_append_empty]
  | cons l ls ih =>
    intro iset
    simp only [List.foldl_cons]
    rcases hm : execLocale l.data with _ | r
    · have hproc : processLine iset l =
          { iset with caption := iset.caption ++ l ++ " " } := by
        simp only [processLine, hm]
      have hov : overrideOfLine l = none := by
        simp [overrideOfLine, hm]
      have hca : captionAccum (l :: ls) = l ++ " " ++ captionAccum ls := by
        simp [captionAccum, hm]
      rw [hproc, ih, hca]
      simp only [List.filterMap_cons, hov]
      simp [string_append_assoc]
    · have hproc : processLine iset l =
          { iset with localizedUrls :=
              iset.localizedUrls ++ [⟨jsToLower r.1, r.2⟩] } := by
        simp only [processLine, hm]
      have hov : overrideOfLine l = some ⟨jsToLower r.1, r.2⟩ := by
        simp [overrideOfLine, hm]
      have hca : captionAccum (l :: ls) = captionAccum ls := by
        simp [captionAccum, hm]
      rw [hproc, ih, hca]
      simp only [List.filterMap_cons, hov]
      simp [List.append_assoc]

/-- The full behaviour of `parseImageBlock` once the module is
initialized. -/
lemma parseImageBlock_spec (ls : List String) (image : ImageBlockInput) :
    parseImageBlock (some ls) image =
      .ok { primaryUrl :=
              (match image.source with
                | .file url => url
                | .externalSource url => url)
            caption := jsTrim (captionAccum (captionLines image))
            localizedUrls := ls.map (fun l => ⟨l, ""⟩) ++
              (captionLines image).filterMap overrideOfLine } := by
  simp only [parseImageBlock]
  rw [foldl_processLine]
  rw [string_empty_append]
  rfl

/-- C9 counterexample data: the claimed rule — a line is an override
exactly when it consists of a two-character locale-code prefix followed by
whitespace and an `https://` URL. -/
def claimedOverrideShape (l : String) : Bool :=
  match l.data with
  | _ :: _ :: rest =>
    (match rest with
      | [] => false
      | r1 :: _ => isWsChar r1 && startsHttps (rest.dropWhile isWsChar))
  | _ => false

/-- C9 counterexample: the line `frhttps://x` has no whitespace after the
two-character prefix, so under the claimed rule it is not an override and
would be appended to the caption; the code's unanchored regex
`/\s*(..)\s*(https:\/\/.*)/` (whose `\s*` matches the empty string)
records it as the override `{fr, https://x}` and contributes nothing to
the caption. -/
theorem c9_counterexample :
    claimedOverrideShape "frhttps://x" = false ∧
    parseImageBlock (some []) ⟨.file "u", ["frhttps://x"]⟩ =
      .ok { primaryUrl := "u", caption := "",
            localizedUrls := [⟨"fr", "https://x"⟩] } :=
  ⟨rfl, rfl⟩

/-- C9 amended: the merged caption is split on newlines, and a line is
recorded as a locale override exactly when the unanchored pattern —
optional whitespace, any two non-newline characters, optional whitespace,
`https://`, rest of line — matches somewhere in the line (leftmost match,
greedy backtracking). The two captured characters, lowercased, become the
locale code and the captured `https://...` suffix the URL (kept verbatim);
any line text before the match is discarded. Every non-matching line is
appended with a trailing space to the accumulated caption text, which is
trimmed at the end. -/
theorem c9_caption_line_rule (ls : List String) (image : ImageBlockInput) :
    parseImageBlock (some ls) image =
      .ok { primaryUrl :=
              (match image.source with
                | .file url => url
                | .externalSource url => url)
            caption := jsTrim (captionAccum (captionLines image))
            localizedUrls := ls.map (fun l => ⟨l, ""⟩) ++
              (captionLines image).filterMap overrideOfLine } :=
  parseImageBlock_spec ls image

/-- C10 data: the spec's locale-extraction example block. -/
def c10image : ImageBlockInput :=
  ⟨.file "https://primary.png",
   ["Intro text.\nfr https://example.com/a.png\nES https://example.com/b.png\nOutro."]⟩

/-- C10: parsing the example caption with any configured locale list
yields caption `"Intro text. Outro."` and localized urls containing
`{fr, https://example.com/a.png}` and `{es, https://example.com/b.png}`,
with the locale codes folded to lowercase. -/
theorem c10_locale_extraction (ls : List String) :
    ∃ is, parseImageBlock (some ls) c10image = .ok is ∧
      is.caption = "Intro text. Outro." ∧
      (⟨"fr", "https://example.com/a.png"⟩ : LocalizedUrl) ∈ is.localizedUrls ∧
      (⟨"es", "https://example.com/b.png"⟩ : LocalizedUrl) ∈ is.localizedUrls := by
  refine ⟨_, parseImageBlock_spec ls c10image, ?_, ?_, ?_⟩
  · rfl
  · refine List.mem_append_right _ ?_
    show (⟨"fr", "https://example.com/a.png"⟩ : LocalizedUrl) ∈
      [(⟨"fr", "https://example.com/a.png"⟩ : LocalizedUrl),
       ⟨"es", "https://example.com/b.png"⟩]
    exact List.mem_cons_self _ _
  · refine List.mem_append_right _ ?_
    show (⟨"es", "https://example.com/b.png"⟩ : LocalizedUrl) ∈
      [(⟨"fr", "https://example.com/a.png"⟩ : LocalizedUrl),
       ⟨"es", "https://example.com/b.png"⟩]
    exact List.mem_cons_of_mem _ (List.mem_cons_self _ _)

end DocuNotion
